import Mathlib

/-!
# Verification of the pragati-server invoice–stock reconciliation engine

Shallow embedding of the invoice controller of the repository
(`src/unnamed/part_000`, the multi-tenant-safe copy of
`controllers/invoiceController.js`, together with the older copy at
`src/controllers/invoiceController.js` where the two differ) over an
explicit relational state.  SQL tables become lists of rows, a transaction
becomes an `Except`-valued state transformer whose error branch discards
the mutated state (BEGIN … COMMIT / ROLLBACK), and `NUMERIC` money values
become exact integers.
-/

namespace Pragati

/-- Invoice lifecycle status (`invoice_status` enum in `query.sql`). -/
inductive Status where
  | draft | sent | paid | cancelled
deriving DecidableEq, Repr

/-- Parse the status string exactly as the `validStatuses` check in
`updateInvoiceStatus` recognises it. -/
def parseStatus (s : String) : Option Status :=
  if s = "draft" then some .draft
  else if s = "sent" then some .sent
  else if s = "paid" then some .paid
  else if s = "cancelled" then some .cancelled
  else none

/-- A row of the `items` table (`id`, `company_id`, `price`, `quantity`).
`price` and `stock` are exact integers (`NUMERIC`/`INTEGER`). -/
structure Item where
  id : Nat
  company : Nat
  price : Int
  stock : Int
deriving DecidableEq, Repr

/-- A row of the `parties` table (fields the engine reads). -/
structure Party where
  id : Nat
  company : Nat
deriving DecidableEq, Repr

/-- A row of the `invoices` table (fields the engine reads or writes). -/
structure Invoice where
  id : Nat
  company : Nat
  party : Nat
  number : Nat
  dueDate : Option Nat
  total : Int
  status : Status
  updatedAt : Nat
deriving DecidableEq, Repr

/-- A row of the `invoice_items` table. -/
structure Line where
  invoice : Nat
  item : Nat
  qty : Int
  price : Int
  lineTotal : Int
deriving DecidableEq, Repr

/-- The relational state the invoice controller touches. -/
structure DB where
  items : List Item
  parties : List Party
  invoices : List Invoice
  lines : List Line
deriving DecidableEq, Repr

/-- One entry of the request's `items` array: `{item_id, quantity}`. -/
structure Req where
  item : Nat
  qty : Int
deriving DecidableEq, Repr

/-- The typed failures the controller surfaces (each corresponds to one
`throw new Error(...)` site or storage constraint). -/
inductive Err where
  | partyNotFound
  | duplicateInvoiceNumber
  | invalidQuantity (item : Nat)
  | itemNotFound (item : Nat)
  | insufficientStock (item : Nat)
  | invoiceNotFound
  | invalidStatus
deriving DecidableEq, Repr

/-- `SELECT price, quantity FROM items WHERE id = $1 AND company_id = $2`. -/
def findItem (db : DB) (cid iid : Nat) : Option Item :=
  db.items.find? (fun it => it.id = iid ∧ it.company = cid)

/-- `SELECT 1 FROM parties WHERE id = $1 AND company_id = $2` row count. -/
def partyExists (db : DB) (cid pid : Nat) : Bool :=
  db.parties.any (fun p => p.id = pid ∧ p.company = cid)

/-- `SELECT 1 FROM invoices WHERE company_id = $1 AND invoice_number = $2`. -/
def numberTaken (db : DB) (cid num : Nat) : Bool :=
  db.invoices.any (fun v => v.company = cid ∧ v.number = num)

/-- `SELECT * FROM invoices WHERE id = $1 AND company_id = $2`. -/
def findInvoice (db : DB) (cid vid : Nat) : Option Invoice :=
  db.invoices.find? (fun v => v.id = vid ∧ v.company = cid)

/-- `UPDATE items SET quantity = quantity + delta WHERE id AND company_id`:
SQL `UPDATE` touches every matching row. -/
def adjustStock (items : List Item) (cid iid : Nat) (delta : Int) : List Item :=
  items.map (fun it =>
    if it.id = iid ∧ it.company = cid then { it with stock := it.stock + delta } else it)

/-- The rows of `invoice_items` belonging to one invoice. -/
def linesOf (db : DB) (vid : Nat) : List Line :=
  db.lines.filter (fun l => l.invoice = vid)

/-- The rows of `invoice_items` of one invoice that reference one item. -/
def rowsFor (db : DB) (vid iid : Nat) : List Line :=
  db.lines.filter (fun l => l.invoice = vid ∧ l.item = iid)

/-- `SELECT COALESCE(SUM(total_line_amount),0) FROM invoice_items WHERE invoice_id = $1`. -/
def sumLines (db : DB) (vid : Nat) : Int :=
  ((linesOf db vid).map (fun l => l.lineTotal)).sum

/-- `UPDATE invoices SET total_amount = $1 WHERE id = $2 AND company_id = $3`. -/
def setTotal (invoices : List Invoice) (cid vid : Nat) (t : Int) : List Invoice :=
  invoices.map (fun v => if v.id = vid ∧ v.company = cid then { v with total := t } else v)

/-- Per-item total quantity requested across a request list
(the stock spent on that item by the create loop). -/
def spent (reqs : List Req) (iid : Nat) : Int :=
  ((reqs.filter (fun r => r.item = iid)).map (fun r => r.qty)).sum

/-! ## createInvoice (src/unnamed/part_000 lines 7–111) -/

/-- The line a successful create inserts for request `r`: quantity from the
request, `price_at_purchase` the item's current catalog price,
`total_line_amount = price × quantity`. -/
def mkLine (db : DB) (cid vid : Nat) (r : Req) : Line :=
  let p := ((findItem db cid r.item).map (fun it => it.price)).getD 0
  ⟨vid, r.item, r.qty, p, p * r.qty⟩

/-- Step B of `createInvoice`: the `for (const item of items)` loop.  Each
iteration validates the quantity, fetches the item scoped to the company,
checks stock, inserts the invoice line and decrements the item's stock.
`acc` is the running `totalAmount`. -/
def processItems (cid vid : Nat) (reqs : List Req) (db : DB) (acc : Int) :
    Except Err (DB × Int) :=
  match reqs with
  | [] => .ok (db, acc)
  | r :: rest =>
    if r.qty ≤ 0 then .error (.invalidQuantity r.item)
    else
      match findItem db cid r.item with
      | none => .error (.itemNotFound r.item)
      | some it =>
        if it.stock < r.qty then .error (.insufficientStock r.item)
        else
          let lineTotal := it.price * r.qty
          let db' : DB :=
            { db with
              lines := db.lines ++ [⟨vid, r.item, r.qty, it.price, lineTotal⟩],
              items := adjustStock db.items cid r.item (-r.qty) }
          processItems cid vid rest db' (acc + lineTotal)

/-- `createInvoice` of `src/unnamed/part_000`: validates the party and the
invoice-number uniqueness, inserts the invoice with `total_amount = 0`,
runs the item loop, then writes the accumulated total.  `vid` models the
id the store generates for the new row and `now` the insertion timestamp. -/
def createInvoice (cid pid num : Nat) (dueDate : Option Nat) (status : Option Status)
    (reqs : List Req) (vid now : Nat) (db : DB) : Except Err DB :=
  if ¬ partyExists db cid pid then .error .partyNotFound
  else if numberTaken db cid num then .error .duplicateInvoiceNumber
  else
    let inv : Invoice :=
      ⟨vid, cid, pid, num, dueDate, 0, status.getD .draft, now⟩
    let db1 : DB := { db with invoices := db.invoices ++ [inv] }
    match processItems cid vid reqs db1 0 with
    | .error e => .error e
    | .ok (db2, total) =>
      .ok { db2 with invoices := setTotal db2.invoices cid vid total }

/-- COMMIT / ROLLBACK wrapper: an error leaves the pre-state untouched. -/
def runCreate (cid pid num : Nat) (dueDate : Option Nat) (status : Option Status)
    (reqs : List Req) (vid now : Nat) (db : DB) : DB :=
  match createInvoice cid pid num dueDate status reqs vid now db with
  | .ok db' => db'
  | .error _ => db

/-! ## createInvoice of the older copy (src/controllers/invoiceController.js
lines 6–83).  It performs no party-ownership check and no explicit
invoice-number check: the invoice insert is guarded only by the storage
constraints, i.e. the foreign key `party_id REFERENCES parties(id)` (mere
existence, in any company) and `UNIQUE (company_id, invoice_number)`.
The item loop is the same as in the newer copy. -/

/-- Older `createInvoice`: storage constraints stand in for the missing
application-level checks. -/
def createInvoiceOld (cid pid num : Nat) (dueDate : Option Nat) (status : Option Status)
    (reqs : List Req) (vid now : Nat) (db : DB) : Except Err DB :=
  if ¬ db.parties.any (fun p => p.id = pid) then .error .partyNotFound
  else if numberTaken db cid num then .error .duplicateInvoiceNumber
  else
    let inv : Invoice :=
      ⟨vid, cid, pid, num, dueDate, 0, status.getD .draft, now⟩
    let db1 : DB := { db with invoices := db.invoices ++ [inv] }
    match processItems cid vid reqs db1 0 with
    | .error e => .error e
    | .ok (db2, total) =>
      .ok { db2 with invoices := setTotal db2.invoices cid vid total }

/-! ## JS `Map` used by updateInvoice for the existing-lines lookup.
`Map.set` overwrites in place (keeping the original insertion position),
`Map.delete` removes the key, `entries()` iterates in insertion order. -/

/-- `Map.set k v` on an insertion-ordered association list. -/
def mapSet (m : List (Nat × Int)) (k : Nat) (v : Int) : List (Nat × Int) :=
  match m with
  | [] => [(k, v)]
  | (k', v') :: rest =>
    if k' = k then (k, v) :: rest else (k', v') :: mapSet rest k v

/-- `Map.get k` (`undefined` ↦ `none`). -/
def mapGet (m : List (Nat × Int)) (k : Nat) : Option Int :=
  (m.find? (fun e => e.1 = k)).map (fun e => e.2)

/-- `Map.has k`. -/
def mapHas (m : List (Nat × Int)) (k : Nat) : Bool :=
  m.any (fun e => e.1 = k)

/-- `Map.delete k`. -/
def mapDelete (m : List (Nat × Int)) (k : Nat) : List (Nat × Int) :=
  m.filter (fun e => ¬ e.1 = k)

/-- `new Map(existingItems.rows.map(row => [row.item_id, row.quantity]))`:
the constructor runs `set` for each row in order. -/
def buildMap (rows : List Line) : List (Nat × Int) :=
  rows.foldl (fun m l => mapSet m l.item l.qty) []

/-! ## updateInvoice (src/unnamed/part_000 lines 208–364) -/

/-- The row update
`SET quantity = $1, price_at_purchase = $2, total_line_amount = $3
 WHERE invoice_id = $4 AND item_id = $5` applied to a single row:
note that it overwrites `price_at_purchase` with the freshly fetched
catalog price. -/
def linePatch (vid iid : Nat) (q p t : Int) (l : Line) : Line :=
  if l.invoice = vid ∧ l.item = iid then { l with qty := q, price := p, lineTotal := t } else l

/-- The `for (const item of items)` loop of `updateInvoice`.  Each iteration
validates the quantity, fetches the item, computes `quantityChange`
against the existing-lines map, checks stock only for a net increase,
upserts the line (re-writing `price_at_purchase` and `total_line_amount`
from the current catalog price) and adjusts stock by `-quantityChange`,
then deletes the item from the map.  `acc` is the in-memory `totalAmount`
(computed by the source but superseded by the storage recompute). -/
def processUpd (cid vid : Nat) (reqs : List Req) (db : DB) (m : List (Nat × Int))
    (acc : Int) : Except Err (DB × List (Nat × Int) × Int) :=
  match reqs with
  | [] => .ok (db, m, acc)
  | r :: rest =>
    if r.qty ≤ 0 then .error (.invalidQuantity r.item)
    else
      match findItem db cid r.item with
      | none => .error (.itemNotFound r.item)
      | some it =>
        let prevQty := (mapGet m r.item).getD 0
        let change := r.qty - prevQty
        if 0 < change ∧ it.stock < change then .error (.insufficientStock r.item)
        else
          let lineTotal := it.price * r.qty
          let db1 : DB :=
            if mapHas m r.item then
              { db with lines := db.lines.map (linePatch vid r.item r.qty it.price lineTotal) }
            else
              { db with lines := db.lines ++ [⟨vid, r.item, r.qty, it.price, lineTotal⟩] }
          let db2 : DB := { db1 with items := adjustStock db1.items cid r.item (-change) }
          processUpd cid vid rest db2 (mapDelete m r.item) (acc + lineTotal)

/-- Step 4 of `updateInvoice`: every entry left in the map is a removed
line — delete its rows and return its quantity to stock. -/
def processDel (cid vid : Nat) (m : List (Nat × Int)) (db : DB) : DB :=
  m.foldl (fun db e =>
    { db with
      lines := db.lines.filter (fun l => ¬ (l.invoice = vid ∧ l.item = e.1)),
      items := adjustStock db.items cid e.1 e.2 }) db

/-- The COALESCE-style meta `UPDATE` of step 2 applied to a single invoice
row: absent fields are left unchanged, `updated_at` is set to `NOW()`. -/
def metaPatch (cid vid : Nat) (dueDate : Option Nat) (partyId : Option Nat)
    (status : Option Status) (now : Nat) (v : Invoice) : Invoice :=
  if v.id = vid ∧ v.company = cid then
    { v with
      dueDate := dueDate.orElse (fun _ => v.dueDate),
      party := partyId.getD v.party,
      status := status.getD v.status,
      updatedAt := now }
  else v

/-- Step 2's meta `UPDATE` over the whole `invoices` table. -/
def applyMeta (cid vid : Nat) (dueDate : Option Nat) (partyId : Option Nat)
    (status : Option Status) (now : Nat) (db : DB) : DB :=
  { db with invoices := db.invoices.map (metaPatch cid vid dueDate partyId status now) }

/-- Steps 2–5 of `updateInvoice`: the COALESCE-style meta update, then —
when an items payload is present — the reconcile loop, the removed-line
handling, and the total recomputed by summing the now-persisted rows. -/
def updateInvoiceMeta (cid vid : Nat) (dueDate : Option Nat) (partyId : Option Nat)
    (status : Option Status) (reqs? : Option (List Req)) (now : Nat) (db : DB) :
    Except Err DB :=
  let db0 : DB := applyMeta cid vid dueDate partyId status now db
  match reqs? with
  | none => .ok db0
  | some reqs =>
    let m0 := buildMap (linesOf db0 vid)
    match processUpd cid vid reqs db0 m0 0 with
    | .error e => .error e
    | .ok (db1, m1, _) =>
      let db2 := processDel cid vid m1 db1
      let finalTotal := sumLines db2 vid
      .ok { db2 with invoices := setTotal db2.invoices cid vid finalTotal }

/-- `updateInvoice` of `src/unnamed/part_000`: ownership check, optional
party check, then the meta update and optional line reconciliation.
`now` models `NOW()`. -/
def updateInvoice (cid vid : Nat) (dueDate : Option Nat) (partyId : Option Nat)
    (status : Option Status) (reqs? : Option (List Req)) (now : Nat) (db : DB) :
    Except Err DB :=
  match findInvoice db cid vid with
  | none => .error .invoiceNotFound
  | some _ =>
    match partyId with
    | some p =>
      if ¬ partyExists db cid p then .error .partyNotFound
      else updateInvoiceMeta cid vid dueDate partyId status reqs? now db
    | none => updateInvoiceMeta cid vid dueDate partyId status reqs? now db

/-- `deleteInvoice` of `src/unnamed/part_000` (lines 406–464): ownership
check, stock returned for every line of the invoice, then the lines and
the invoice row are deleted. -/
def deleteInvoice (cid vid : Nat) (db : DB) : Except Err DB :=
  match findInvoice db cid vid with
  | none => .error .invoiceNotFound
  | some _ =>
    let db1 : DB :=
      { db with items := ((linesOf db vid).foldl
          (fun items l => adjustStock items cid l.item l.qty) db.items) }
    .ok { db1 with
          lines := db1.lines.filter (fun l => ¬ l.invoice = vid),
          invoices := db1.invoices.filter (fun v => ¬ (v.id = vid ∧ v.company = cid)) }

/-- `deleteInvoice` of the older copy (`src/controllers/invoiceController.js`
lines 333–362): ownership check, then
`DELETE FROM invoice_items WHERE invoice_id = $1` and
`DELETE FROM invoices WHERE id = $1` — no stock is returned. -/
def deleteInvoiceOld (cid vid : Nat) (db : DB) : Except Err DB :=
  match findInvoice db cid vid with
  | none => .error .invoiceNotFound
  | some _ =>
    .ok { db with
          lines := db.lines.filter (fun l => ¬ l.invoice = vid),
          invoices := db.invoices.filter (fun v => ¬ v.id = vid) }

/-! ## updateInvoiceStatus (src/unnamed/part_000 lines 369–401) -/

/-- The row update `SET status = $1, updated_at = NOW()` scoped by
id and company, as applied to a single row. -/
def statusPatch (cid vid : Nat) (st : Status) (now : Nat) (v : Invoice) : Invoice :=
  if v.id = vid ∧ v.company = cid then { v with status := st, updatedAt := now } else v

/-- `updateInvoiceStatus`: validates the status string against
`validStatuses`, then a single scoped `UPDATE ... RETURNING *`; zero rows
updated means the invoice is not owned by the company. -/
def updateInvoiceStatus (cid vid : Nat) (status : String) (now : Nat) (db : DB) :
    Except Err DB :=
  match parseStatus status with
  | none => .error .invalidStatus
  | some st =>
    match findInvoice db cid vid with
    | none => .error .invoiceNotFound
    | some _ =>
      .ok { db with invoices := db.invoices.map (statusPatch cid vid st now) }

/-- COMMIT / ROLLBACK wrapper for `updateInvoiceStatus` (a single statement;
an error performs no write). -/
def runStatus (cid vid : Nat) (status : String) (now : Nat) (db : DB) : DB :=
  match updateInvoiceStatus cid vid status now db with
  | .ok db' => db'
  | .error _ => db

/-! ## Basic lemmas about the SQL primitives -/

theorem adjustStock_find? (items : List Item) (cid iid c j : Nat) (d : Int) :
    (adjustStock items cid iid d).find? (fun it => it.id = j ∧ it.company = c) =
      ((items.find? (fun it => it.id = j ∧ it.company = c)).map
        (fun it => if it.id = iid ∧ it.company = cid then { it with stock := it.stock + d } else it)) := by
  unfold adjustStock
  rw [List.find?_map]
  have hp : ((fun it : Item => decide (it.id = j ∧ it.company = c)) ∘
      (fun it : Item => if it.id = iid ∧ it.company = cid then { it with stock := it.stock + d } else it)) =
      (fun it : Item => decide (it.id = j ∧ it.company = c)) := by
    funext it
    by_cases h : it.id = iid ∧ it.company = cid <;> simp [h]
  rw [hp]

theorem adjustStock_find?_price (items : List Item) (cid iid c j : Nat) (d : Int) :
    ((adjustStock items cid iid d).find? (fun it => it.id = j ∧ it.company = c)).map
        (fun it => it.price) =
      (items.find? (fun it => it.id = j ∧ it.company = c)).map (fun it => it.price) := by
  rw [adjustStock_find?]
  cases items.find? (fun it => it.id = j ∧ it.company = c) with
  | none => rfl
  | some it => by_cases h : it.id = iid ∧ it.company = cid <;> simp [h]

theorem spent_cons (r : Req) (rest : List Req) (j : Nat) :
    spent (r :: rest) j = (if r.item = j then r.qty else 0) + spent rest j := by
  by_cases h : r.item = j <;> simp [spent, List.filter_cons, h]

/-- `mkLine` reads the state only through the item's catalog price. -/
theorem mkLine_congr (db db' : DB) (cid vid : Nat) (r : Req)
    (h : ∀ j, ((findItem db' cid j).map (fun it => it.price)) =
      ((findItem db cid j).map (fun it => it.price))) :
    mkLine db' cid vid r = mkLine db cid vid r := by
  unfold mkLine
  rw [h]

/-- Price lookups are invariant under stock adjustment. -/
theorem findItem_price_adjust (db : DB) (L : List Line) (c0 i0 : Nat) (d : Int)
    (cid j : Nat) :
    ((findItem { db with lines := L, items := adjustStock db.items c0 i0 d } cid j).map
        (fun it => it.price)) =
      ((findItem db cid j).map (fun it => it.price)) := by
  unfold findItem
  exact adjustStock_find?_price db.items c0 i0 cid j d

/-- One stock decrement folded into the per-item spent-quantity map. -/
theorem adjustStock_map_stockFun (items : List Item) (cid : Nat) (r : Req)
    (rest : List Req) :
    (adjustStock items cid r.item (-r.qty)).map (fun it =>
        if it.company = cid then { it with stock := it.stock - spent rest it.id } else it) =
      items.map (fun it =>
        if it.company = cid then { it with stock := it.stock - spent (r :: rest) it.id } else it) := by
  unfold adjustStock
  rw [List.map_map]
  apply List.map_congr_left
  intro x _
  obtain ⟨xid, xco, xpr, xst⟩ := x
  simp only [Function.comp_apply]
  by_cases h1 : xid = r.item ∧ xco = cid
  · obtain ⟨ha, hb⟩ := h1
    subst ha; subst hb
    simp [spent_cons]
    omega
  · by_cases h2 : xco = cid
    · have h3 : ¬ r.item = xid := by
        intro hc
        exact h1 ⟨hc.symm, h2⟩
      have h4 : ¬ xid = r.item := by
        intro hc
        exact h1 ⟨hc, h2⟩
      simp [h4, h2, spent_cons, h3]
    · simp [h1, h2]

/-! ## The create loop: master specification -/

/-- Full characterisation of a successful create loop: parties and invoices
untouched, the inserted lines are exactly `mkLine` of each request (current
catalog price, `total = price × qty`), the accumulator adds up their line
totals, and every item of the company loses exactly the requested
quantities. -/
theorem processItems_ok_spec {cid vid : Nat} {reqs : List Req} {db db2 : DB}
    {acc acc2 : Int} (h : processItems cid vid reqs db acc = .ok (db2, acc2)) :
    db2.parties = db.parties ∧
    db2.invoices = db.invoices ∧
    db2.lines = db.lines ++ reqs.map (mkLine db cid vid) ∧
    acc2 = acc + ((reqs.map (mkLine db cid vid)).map (fun l => l.lineTotal)).sum ∧
    db2.items = db.items.map (fun it =>
      if it.company = cid then { it with stock := it.stock - spent reqs it.id } else it) := by
  induction reqs generalizing db acc with
  | nil =>
    simp only [processItems, Except.ok.injEq, Prod.mk.injEq] at h
    obtain ⟨h1, h2⟩ := h
    subst h1; subst h2
    refine ⟨rfl, rfl, by simp, by simp, ?_⟩
    symm
    conv_rhs => rw [show db.items = db.items.map id from (List.map_id db.items).symm]
    apply List.map_congr_left
    intro it _
    by_cases hc : it.company = cid
    · rw [if_pos hc]
      have h0 : it.stock - spent ([] : List Req) it.id = it.stock := by simp [spent]
      rw [h0]
      rfl
    · rw [if_neg hc]
      rfl
  | cons r rest ih =>
    rw [processItems] at h
    by_cases hq : r.qty ≤ 0
    · rw [if_pos hq] at h; exact absurd h (by simp)
    rw [if_neg hq] at h
    cases hf : findItem db cid r.item with
    | none => rw [hf] at h; exact absurd h (by simp)
    | some it =>
      rw [hf] at h
      simp only [] at h
      by_cases hs : it.stock < r.qty
      · rw [if_pos hs] at h; exact absurd h (by simp)
      rw [if_neg hs] at h
      obtain ⟨hP, hI, hL, hA, hIt⟩ := ih h
      have hprice : ∀ j,
          ((findItem { db with
                lines := db.lines ++ [⟨vid, r.item, r.qty, it.price, it.price * r.qty⟩],
                items := adjustStock db.items cid r.item (-r.qty) } cid j).map (fun x => x.price)) =
            ((findItem db cid j).map (fun x => x.price)) := by
        intro j
        exact findItem_price_adjust db _ cid r.item (-r.qty) cid j
      have hml : ∀ r' ∈ rest,
          mkLine { db with
              lines := db.lines ++ [⟨vid, r.item, r.qty, it.price, it.price * r.qty⟩],
              items := adjustStock db.items cid r.item (-r.qty) } cid vid r' = mkLine db cid vid r' := by
        intro r' _
        exact mkLine_congr _ _ _ _ _ hprice
      have hhead : mkLine db cid vid r = ⟨vid, r.item, r.qty, it.price, it.price * r.qty⟩ := by
        simp [mkLine, hf]
      refine ⟨hP, hI, ?_, ?_, ?_⟩
      · rw [hL, List.map_congr_left hml]
        simp [hhead]
      · rw [hA, List.map_congr_left hml]
        simp [hhead]
        omega
      · rw [hIt]
        exact adjustStock_map_stockFun db.items cid r rest

/-! ## Well-formedness: store constraints (`PRIMARY KEY` on items,
`CHECK (quantity >= 0)` on items, `CHECK (quantity > 0)` on lines) -/

/-- Destructor for a successful `createInvoice`: both validations passed, the
loop succeeded on the state holding the fresh invoice row, and the result
merely sets the accumulated total on it. -/
theorem createInvoice_ok_elim {cid pid num : Nat} {dd : Option Nat} {st : Option Status}
    {reqs : List Req} {vid now : Nat} {db db' : DB}
    (h : createInvoice cid pid num dd st reqs vid now db = .ok db') :
    ∃ db2 total,
      processItems cid vid reqs
          { db with invoices := db.invoices ++ [⟨vid, cid, pid, num, dd, 0, st.getD .draft, now⟩] }
          0 = .ok (db2, total) ∧
      db' = { db2 with invoices := setTotal db2.invoices cid vid total } ∧
      partyExists db cid pid = true ∧ numberTaken db cid num = false := by
  unfold createInvoice at h
  by_cases hp : partyExists db cid pid
  · by_cases hn : numberTaken db cid num
    · simp [hp, hn] at h
    · simp only [hp, hn, not_true, ite_false, if_neg, Bool.false_eq_true, not_false_iff,
        ite_true, if_pos] at h
      cases hpi : processItems cid vid reqs
          { db with invoices := db.invoices ++ [⟨vid, cid, pid, num, dd, 0, st.getD .draft, now⟩] } 0 with
      | error e => rw [hpi] at h; exact absurd h (by simp)
      | ok p =>
        obtain ⟨db2, total⟩ := p
        rw [hpi] at h
        simp only [Except.ok.injEq] at h
        exact ⟨db2, total, rfl, h.symm, by simp [hp], by simp [hn]⟩
  · simp [hp] at h

theorem setTotal_find? (invoices : List Invoice) (cid vid : Nat) (t : Int) :
    (setTotal invoices cid vid t).find? (fun v => v.id = vid ∧ v.company = cid) =
      ((invoices.find? (fun v => v.id = vid ∧ v.company = cid)).map
        (fun v => if v.id = vid ∧ v.company = cid then { v with total := t } else v)) := by
  unfold setTotal
  rw [List.find?_map]
  have hp : ((fun v : Invoice => decide (v.id = vid ∧ v.company = cid)) ∘
      (fun v : Invoice => if v.id = vid ∧ v.company = cid then { v with total := t } else v)) =
      (fun v : Invoice => decide (v.id = vid ∧ v.company = cid)) := by
    funext v
    by_cases h : v.id = vid ∧ v.company = cid
    · simp [h]
    · simp only [Function.comp_apply]
      rw [if_neg h]
  rw [hp]

theorem findItem_adjust (db : DB) (L : List Line) (c0 i0 : Nat) (d : Int) (cid j : Nat) :
    findItem { db with lines := L, items := adjustStock db.items c0 i0 d } cid j =
      ((findItem db cid j).map
        (fun it => if it.id = i0 ∧ it.company = c0 then { it with stock := it.stock + d } else it)) := by
  unfold findItem
  exact adjustStock_find? db.items c0 i0 cid j d

/-- On success every requested item exists in the caller's catalog. -/
theorem processItems_found {cid vid : Nat} {reqs : List Req} {db db2 : DB} {acc acc2 : Int}
    (h : processItems cid vid reqs db acc = .ok (db2, acc2)) :
    ∀ r ∈ reqs, (findItem db cid r.item).isSome := by
  induction reqs generalizing db acc with
  | nil => simp
  | cons r rest ih =>
    rw [processItems] at h
    by_cases hq : r.qty ≤ 0
    · rw [if_pos hq] at h; exact absurd h (by simp)
    rw [if_neg hq] at h
    cases hf : findItem db cid r.item with
    | none => rw [hf] at h; exact absurd h (by simp)
    | some it =>
      rw [hf] at h
      simp only [] at h
      by_cases hs : it.stock < r.qty
      · rw [if_pos hs] at h; exact absurd h (by simp)
      rw [if_neg hs] at h
      intro r' hr'
      rcases List.mem_cons.mp hr' with h' | h'
      · subst h'; simp [hf]
      · have h2 := ih h r' h'
        rw [findItem_adjust] at h2
        cases hfi : findItem db cid r'.item with
        | none => rw [hfi] at h2; simp at h2
        | some x => simp [hfi]

/-- The lines a successful create leaves for the fresh invoice are exactly
one `mkLine` per request entry, in request order. -/
theorem createInvoice_ok_lines
    {cid pid num : Nat} {dd : Option Nat} {st : Option Status} {reqs : List Req}
    {vid now : Nat} {db db' : DB}
    (hfl : ∀ l ∈ db.lines, l.invoice ≠ vid)
    (h : createInvoice cid pid num dd st reqs vid now db = .ok db') :
    linesOf db' vid = reqs.map (mkLine db cid vid) := by
  obtain ⟨db2, total, hpi, rfl, hp, hn⟩ := createInvoice_ok_elim h
  obtain ⟨hP, hI, hL, hA, hIt⟩ := processItems_ok_spec hpi
  have hml : ∀ r : Req,
      mkLine { db with invoices := db.invoices ++ [⟨vid, cid, pid, num, dd, 0, st.getD .draft, now⟩] }
        cid vid r = mkLine db cid vid r := by
    intro r
    rfl
  show db2.lines.filter _ = _
  rw [hL]
  rw [List.filter_append]
  have h1 : db.lines.filter (fun l => decide (l.invoice = vid)) = [] := by
    apply List.filter_eq_nil_iff.mpr
    intro l hl
    simp [hfl l hl]
  have h2 : (reqs.map (mkLine { db with
      invoices := db.invoices ++ [⟨vid, cid, pid, num, dd, 0, st.getD .draft, now⟩] } cid vid)).filter
        (fun l => decide (l.invoice = vid)) =
      reqs.map (mkLine db cid vid) := by
    rw [List.filter_eq_self.mpr]
    · apply List.map_congr_left
      intro r _
      exact hml r
    · intro l hl
      obtain ⟨r, _, rfl⟩ := List.mem_map.mp hl
      simp [mkLine]
  show db.lines.filter _ ++ _ = _
  rw [h1, h2]
  simp

/-- C1: for every successful `createInvoice` on a state where `vid` is fresh,
the committed invoice's `total_amount` is the sum of its stored lines'
`total_line_amount`; the stored lines are exactly the requested ones priced
at the current catalog price with `total_line_amount = price × quantity`;
and each item of the company loses exactly the quantities requested for it
(its stock decreases by each of its lines' quantities). -/
theorem createInvoice_total_and_stock
    {cid pid num : Nat} {dd : Option Nat} {st : Option Status} {reqs : List Req}
    {vid now : Nat} {db db' : DB}
    (hfl : ∀ l ∈ db.lines, l.invoice ≠ vid)
    (hfv : ∀ v ∈ db.invoices, v.id ≠ vid)
    (h : createInvoice cid pid num dd st reqs vid now db = .ok db') :
    (∃ v, findInvoice db' cid vid = some v ∧ v.total = sumLines db' vid) ∧
    linesOf db' vid = reqs.map (mkLine db cid vid) ∧
    (∀ l ∈ linesOf db' vid, l.lineTotal = l.price * l.qty ∧
        (findItem db cid l.item).map (fun it => it.price) = some l.price) ∧
    db'.items = db.items.map (fun it =>
      if it.company = cid then { it with stock := it.stock - spent reqs it.id } else it) := by
  have hlines := createInvoice_ok_lines hfl h
  obtain ⟨db2, total, hpi, rfl, hp, hn⟩ := createInvoice_ok_elim h
  obtain ⟨hP, hI, hL, hA, hIt⟩ := processItems_ok_spec hpi
  have hfound := processItems_found hpi
  have hml : ∀ r : Req,
      mkLine { db with invoices := db.invoices ++ [⟨vid, cid, pid, num, dd, 0, st.getD .draft, now⟩] }
        cid vid r = mkLine db cid vid r := by
    intro r
    rfl
  refine ⟨?_, hlines, ?_, ?_⟩
  · refine ⟨(⟨vid, cid, pid, num, dd, total, st.getD .draft, now⟩ : Invoice), ?_, ?_⟩
    · show (setTotal db2.invoices cid vid total).find? _ = _
      rw [setTotal_find?]
      rw [hI]
      show ((db.invoices ++ [(⟨vid, cid, pid, num, dd, 0, st.getD .draft, now⟩ : Invoice)]).find? _).map _ = _
      rw [List.find?_append]
      have h1 : db.invoices.find? (fun v => decide (v.id = vid ∧ v.company = cid)) = none := by
        apply List.find?_eq_none.mpr
        intro v hv
        simp [hfv v hv]
      rw [h1]
      simp
    · show total = sumLines _ vid
      unfold sumLines
      rw [hlines, hA]
      have : reqs.map (mkLine { db with
          invoices := db.invoices ++ [⟨vid, cid, pid, num, dd, 0, st.getD .draft, now⟩] } cid vid) =
          reqs.map (mkLine db cid vid) := List.map_congr_left (fun r _ => hml r)
      simp [this]
  · intro l hl
    rw [hlines] at hl
    obtain ⟨r, hr, rfl⟩ := List.mem_map.mp hl
    have hs := hfound r hr
    rw [Option.isSome_iff_exists] at hs
    obtain ⟨it, hit⟩ := hs
    have hit' : findItem db cid r.item = some it := hit
    constructor
    · simp [mkLine]
    · simp [mkLine, hit']
  · rw [hIt]

/-- C10: `createInvoice` with an empty items list commits an invoice with
`total_amount = 0` and leaves every item, party and line row untouched. -/
theorem createInvoice_empty_lines
    {cid pid num : Nat} {dd : Option Nat} {st : Option Status} {vid now : Nat} {db : DB}
    (hp : partyExists db cid pid = true) (hn : numberTaken db cid num = false)
    (hfv : ∀ v ∈ db.invoices, v.id ≠ vid) :
    createInvoice cid pid num dd st [] vid now db =
      .ok { db with invoices := db.invoices ++ [⟨vid, cid, pid, num, dd, 0, st.getD .draft, now⟩] } := by
  unfold createInvoice
  rw [if_neg (by simp [hp])]
  rw [if_neg (by simp [hn])]
  simp only [processItems]
  have hset : setTotal (db.invoices ++ [(⟨vid, cid, pid, num, dd, 0, st.getD .draft, now⟩ : Invoice)])
      cid vid 0 = db.invoices ++ [⟨vid, cid, pid, num, dd, 0, st.getD .draft, now⟩] := by
    unfold setTotal
    rw [List.map_append]
    have h1 : db.invoices.map
        (fun v => if v.id = vid ∧ v.company = cid then { v with total := 0 } else v) = db.invoices := by
      conv_rhs => rw [← List.map_id db.invoices]
      apply List.map_congr_left
      intro v hv
      rw [if_neg (by intro hc; exact hfv v hv hc.1)]
      rfl
    rw [h1]
    simp
  rw [hset]

/-- A request list containing a non-positive quantity always makes the
create loop fail, whatever state it starts from. -/
theorem processItems_err_of_bad {cid vid : Nat} {reqs : List Req}
    (hbad : ∃ r ∈ reqs, r.qty ≤ 0) :
    ∀ db acc, ∃ e, processItems cid vid reqs db acc = .error e := by
  induction reqs with
  | nil => exact absurd hbad (by simp)
  | cons r rest ih =>
    intro db acc
    rw [processItems]
    by_cases hq : r.qty ≤ 0
    · refine ⟨.invalidQuantity r.item, ?_⟩
      rw [if_pos hq]
    rw [if_neg hq]
    obtain ⟨r0, hr0, hq0⟩ := hbad
    rcases List.mem_cons.mp hr0 with h' | h'
    · subst h'; omega
    cases hf : findItem db cid r.item with
    | none => exact ⟨.itemNotFound r.item, rfl⟩
    | some it =>
      simp only []
      by_cases hs : it.stock < r.qty
      · refine ⟨.insufficientStock r.item, ?_⟩
        rw [if_pos hs]
      rw [if_neg hs]
      exact ih ⟨r0, h', hq0⟩ _ _

/-- C6: a `createInvoice` request with a zero or negative line quantity
always fails, the commit/rollback wrapper returns the pre-state unchanged,
and — when the tenant checks pass and the offending line comes first — the
error is precisely the quantity-validation error. -/
theorem createInvoice_rejects_nonpositive_qty
    {cid pid num : Nat} {dd : Option Nat} {st : Option Status} {reqs : List Req}
    {vid now : Nat} {db : DB}
    (hbad : ∃ r ∈ reqs, r.qty ≤ 0) :
    (∃ e, createInvoice cid pid num dd st reqs vid now db = .error e) ∧
    runCreate cid pid num dd st reqs vid now db = db ∧
    (∀ r rest, reqs = r :: rest → r.qty ≤ 0 →
      partyExists db cid pid = true → numberTaken db cid num = false →
      createInvoice cid pid num dd st reqs vid now db = .error (.invalidQuantity r.item)) := by
  have hmain : ∃ e, createInvoice cid pid num dd st reqs vid now db = .error e := by
    unfold createInvoice
    by_cases hp : partyExists db cid pid
    · by_cases hn : numberTaken db cid num
      · refine ⟨.duplicateInvoiceNumber, ?_⟩
        rw [if_neg (by simp [hp]), if_pos hn]
      · rw [if_neg (by simp [hp]), if_neg hn]
        obtain ⟨e, he⟩ := @processItems_err_of_bad cid vid reqs hbad
          { db with invoices := db.invoices ++ [⟨vid, cid, pid, num, dd, 0, st.getD .draft, now⟩] } 0
        refine ⟨e, ?_⟩
        simp only [he]
    · refine ⟨.partyNotFound, ?_⟩
      rw [if_pos (by simp [hp])]
  refine ⟨hmain, ?_, ?_⟩
  · obtain ⟨e, he⟩ := hmain
    unfold runCreate
    rw [he]
  · intro r rest hre hq hp hn
    subst hre
    unfold createInvoice
    rw [if_neg (by simp [hp]), if_neg (by simp [hn])]
    have he : processItems cid vid (r :: rest)
        { db with invoices := db.invoices ++ [⟨vid, cid, pid, num, dd, 0, st.getD .draft, now⟩] } 0 =
        .error (.invalidQuantity r.item) := by
      rw [processItems, if_pos hq]
    simp only [he]

/-- C8 counterexample: a request repeating `item_id = 10` is not rejected —
it succeeds and stores two separate lines for the same item, decrementing
stock by both quantities. -/
theorem createInvoice_duplicate_item_accepted :
    createInvoice 1 5 78 none none [⟨10, 1⟩, ⟨10, 2⟩] 101 0
        { items := [⟨10, 1, 100, 10⟩], parties := [⟨5, 1⟩], invoices := [], lines := [] } =
      .ok { items := [⟨10, 1, 100, 7⟩], parties := [⟨5, 1⟩],
            invoices := [⟨101, 1, 5, 78, none, 300, .draft, 0⟩],
            lines := [⟨101, 10, 1, 100, 100⟩, ⟨101, 10, 2, 100, 200⟩] } := by
  rfl

/-- C8 amended: duplicate `item_id`s in a create request are neither
rejected nor merged — every request entry, duplicate or not, yields its own
stored line, in request order; and `updateInvoice` likewise allows a
duplicated desired item rather than rejecting it: on an invoice holding one
row of quantity 2 for item 10, the desired list `[qty 1, qty 3]` repeating
item 10 commits, the first occurrence updating the existing row to
quantity 1 and the second inserting an additional row of quantity 3 for the
same item. -/
theorem createInvoice_duplicates_kept_separate
    {cid pid num : Nat} {dd : Option Nat} {st : Option Status} {reqs : List Req}
    {vid now : Nat} {db db' : DB}
    (hfl : ∀ l ∈ db.lines, l.invoice ≠ vid)
    (h : createInvoice cid pid num dd st reqs vid now db = .ok db') :
    linesOf db' vid = reqs.map (mkLine db cid vid) ∧
    (linesOf db' vid).length = reqs.length ∧
    updateInvoice 1 100 none none none (some [⟨10, 1⟩, ⟨10, 3⟩]) 1
        ⟨[⟨10, 1, 100, 10⟩], [⟨5, 1⟩], [⟨100, 1, 5, 77, none, 200, .draft, 0⟩],
          [⟨100, 10, 2, 100, 200⟩]⟩ =
      .ok ⟨[⟨10, 1, 100, 8⟩], [⟨5, 1⟩], [⟨100, 1, 5, 77, none, 400, .draft, 1⟩],
        [⟨100, 10, 1, 100, 100⟩, ⟨100, 10, 3, 100, 300⟩]⟩ := by
  have hlines := createInvoice_ok_lines hfl h
  exact ⟨hlines, by rw [hlines, List.length_map], rfl⟩

/-- C3: on a state holding an invoice with one line of quantity 4 for an
item with stock 6, the older controller's `deleteInvoice` removes the line
and the invoice but leaves the stock at 6, while the multi-tenant-safe copy
restores it to 10. -/
theorem deleteInvoiceOld_leaves_stock_unrestored :
    deleteInvoiceOld 1 100
        { items := [⟨10, 1, 100, 6⟩], parties := [⟨5, 1⟩],
          invoices := [⟨100, 1, 5, 77, none, 400, .draft, 0⟩],
          lines := [⟨100, 10, 4, 100, 400⟩] } =
      .ok { items := [⟨10, 1, 100, 6⟩], parties := [⟨5, 1⟩], invoices := [], lines := [] } ∧
    deleteInvoice 1 100
        { items := [⟨10, 1, 100, 6⟩], parties := [⟨5, 1⟩],
          invoices := [⟨100, 1, 5, 77, none, 400, .draft, 0⟩],
          lines := [⟨100, 10, 4, 100, 400⟩] } =
      .ok { items := [⟨10, 1, 100, 10⟩], parties := [⟨5, 1⟩], invoices := [], lines := [] } := by
  exact ⟨rfl, rfl⟩

/-- C7: the older controller's `createInvoice` never checks that the party
belongs to the caller's tenant: company 2 successfully commits an invoice
attached to company 1's party, where the multi-tenant-safe copy fails with
the party-not-found error. -/
theorem createInvoiceOld_accepts_foreign_party :
    createInvoiceOld 2 5 77 none none [] 100 0
        { items := [⟨10, 1, 100, 10⟩], parties := [⟨5, 1⟩], invoices := [], lines := [] } =
      .ok { items := [⟨10, 1, 100, 10⟩], parties := [⟨5, 1⟩],
            invoices := [⟨100, 2, 5, 77, none, 0, .draft, 0⟩], lines := [] } ∧
    createInvoice 2 5 77 none none [] 100 0
        { items := [⟨10, 1, 100, 10⟩], parties := [⟨5, 1⟩], invoices := [], lines := [] } =
      .error .partyNotFound := by
  exact ⟨rfl, rfl⟩

/-- `find?` by id/company commutes with a row map that preserves both. -/
theorem find?_invmap (invoices : List Invoice) (cid vid : Nat) (g : Invoice → Invoice)
    (hg : ∀ v, (g v).id = v.id ∧ (g v).company = v.company) :
    (invoices.map g).find? (fun v => v.id = vid ∧ v.company = cid) =
      ((invoices.find? (fun v => v.id = vid ∧ v.company = cid)).map g) := by
  rw [List.find?_map]
  have hp : ((fun v : Invoice => decide (v.id = vid ∧ v.company = cid)) ∘ g) =
      (fun v : Invoice => decide (v.id = vid ∧ v.company = cid)) := by
    funext v
    simp [Function.comp_apply, (hg v).1, (hg v).2]
  rw [hp]

theorem statusPatch_id_company (cid vid : Nat) (st : Status) (t : Nat) (v : Invoice) :
    (statusPatch cid vid st t v).id = v.id ∧ (statusPatch cid vid st t v).company = v.company := by
  unfold statusPatch
  by_cases hw : v.id = vid ∧ v.company = cid <;> simp [hw]

theorem statusPatch_idem (cid vid : Nat) (st : Status) (t : Nat) (v : Invoice) :
    statusPatch cid vid st t (statusPatch cid vid st t v) = statusPatch cid vid st t v := by
  unfold statusPatch
  by_cases hw : v.id = vid ∧ v.company = cid
  · rw [if_pos hw]
    rw [if_pos (show ({ v with status := st, updatedAt := t } : Invoice).id = vid ∧
        ({ v with status := st, updatedAt := t } : Invoice).company = cid from hw)]
  · rw [if_neg hw, if_neg hw]

/-- C9: `updateInvoiceStatus` is idempotent — applying it twice with the
same status string and timestamp produces exactly the state one application
produces — and a single application never touches any item's stock or any
invoice line. -/
theorem updateInvoiceStatus_idempotent (cid vid : Nat) (s : String) (t : Nat) (db : DB) :
    runStatus cid vid s t (runStatus cid vid s t db) = runStatus cid vid s t db ∧
    (runStatus cid vid s t db).items = db.items ∧
    (runStatus cid vid s t db).lines = db.lines := by
  cases hps : parseStatus s with
  | none =>
    have h1 : ∀ d : DB, runStatus cid vid s t d = d := by
      intro d
      unfold runStatus updateInvoiceStatus
      rw [hps]
    rw [h1, h1]
    exact ⟨rfl, rfl, rfl⟩
  | some st =>
    cases hfi : findInvoice db cid vid with
    | none =>
      have h1 : runStatus cid vid s t db = db := by
        unfold runStatus updateInvoiceStatus
        rw [hps, hfi]
      rw [h1]
      exact ⟨h1, rfl, rfl⟩
    | some v =>
      have hv := List.find?_some hfi
      simp only [decide_eq_true_eq] at hv
      have h1 : runStatus cid vid s t db =
          { db with invoices := db.invoices.map (statusPatch cid vid st t) } := by
        unfold runStatus updateInvoiceStatus
        rw [hps, hfi]
      have hfind : findInvoice
          { db with invoices := db.invoices.map (statusPatch cid vid st t) } cid vid =
          some (statusPatch cid vid st t v) := by
        show (db.invoices.map _).find? _ = _
        rw [find?_invmap db.invoices cid vid (statusPatch cid vid st t)
          (statusPatch_id_company cid vid st t)]
        show (findInvoice db cid vid).map _ = _
        rw [hfi]
        rfl
      have h2 : runStatus cid vid s t
          { db with invoices := db.invoices.map (statusPatch cid vid st t) } =
          { db with
            invoices := ((db.invoices.map (statusPatch cid vid st t)).map (statusPatch cid vid st t)) } := by
        unfold runStatus updateInvoiceStatus
        rw [hps, hfind]
      rw [h1, h2]
      refine ⟨?_, rfl, rfl⟩
      have hmm : (db.invoices.map (statusPatch cid vid st t)).map (statusPatch cid vid st t) =
          db.invoices.map (statusPatch cid vid st t) := by
        rw [List.map_map]
        apply List.map_congr_left
        intro w _
        exact statusPatch_idem cid vid st t w
      rw [hmm]

/-! ## Lemmas about the JS-map primitives and line filters -/

theorem mapGet_mapSet_self (m : List (Nat × Int)) (k : Nat) (v : Int) :
    mapGet (mapSet m k v) k = some v := by
  induction m with
  | nil => simp [mapSet, mapGet]
  | cons e rest ih =>
    by_cases he : e.1 = k
    · simp [mapSet, he, mapGet]
    · simp only [mapSet, if_neg he]
      simp only [mapGet, List.find?_cons, he]
      simp only [mapGet] at ih
      simpa [he] using ih

theorem mapGet_mapSet_ne (m : List (Nat × Int)) (k k' : Nat) (v : Int) (h : ¬ k' = k) :
    mapGet (mapSet m k v) k' = mapGet m k' := by
  have hkk : ¬ k = k' := fun hc => h hc.symm
  induction m with
  | nil => simp [mapSet, mapGet, hkk]
  | cons e rest ih =>
    by_cases he : e.1 = k
    · rw [mapSet, if_pos he]
      unfold mapGet
      rw [List.find?_cons_of_neg _ (by simp [hkk]),
        List.find?_cons_of_neg _ (by simp [he]; omega)]
    · rw [mapSet, if_neg he]
      by_cases he' : e.1 = k'
      · unfold mapGet
        rw [List.find?_cons_of_pos _ (by simp [he']), List.find?_cons_of_pos _ (by simp [he'])]
      · unfold mapGet
        rw [List.find?_cons_of_neg _ (by simp [he']), List.find?_cons_of_neg _ (by simp [he'])]
        exact ih

theorem mapGet_mapDelete_self (m : List (Nat × Int)) (k : Nat) :
    mapGet (mapDelete m k) k = none := by
  unfold mapGet mapDelete
  rw [Option.map_eq_none']
  apply List.find?_eq_none.mpr
  intro e he
  have := (List.mem_filter.mp he).2
  simp only [decide_eq_true_eq] at this
  simp [this]

theorem mapGet_mapDelete_ne (m : List (Nat × Int)) (k k' : Nat) (h : ¬ k' = k) :
    mapGet (mapDelete m k) k' = mapGet m k' := by
  unfold mapGet mapDelete
  congr 1
  induction m with
  | nil => rfl
  | cons e rest ih =>
    by_cases he : e.1 = k
    · rw [List.filter_cons_of_neg (by simp [he])]
      rw [List.find?_cons_of_neg _ (by simp [he]; omega)]
      exact ih
    · rw [List.filter_cons_of_pos (by simp [he])]
      by_cases he' : e.1 = k'
      · rw [List.find?_cons_of_pos _ (by simp [he']), List.find?_cons_of_pos _ (by simp [he'])]
      · rw [List.find?_cons_of_neg _ (by simp [he']), List.find?_cons_of_neg _ (by simp [he'])]
        exact ih

theorem mapHas_iff (m : List (Nat × Int)) (k : Nat) :
    mapHas m k = true ↔ ¬ mapGet m k = none := by
  unfold mapHas mapGet
  rw [List.any_eq_true]
  constructor
  · rintro ⟨e, he, hek⟩
    simp only [decide_eq_true_eq] at hek
    intro hc
    rw [Option.map_eq_none'] at hc
    have := List.find?_eq_none.mp hc e he
    simp [hek] at this
  · intro hc
    cases hfind : m.find? (fun e => e.1 = k) with
    | none => exact absurd (by rw [hfind]; rfl) hc
    | some e =>
      have hp := List.find?_some hfind
      simp only [decide_eq_true_eq] at hp
      exact ⟨e, List.mem_of_find?_eq_some hfind, by simp [hp]⟩

theorem buildMap_get_none_aux (rows : List Line) (m0 : List (Nat × Int)) (k : Nat) :
    mapGet (rows.foldl (fun m l => mapSet m l.item l.qty) m0) k = none ↔
      (mapGet m0 k = none ∧ ∀ l ∈ rows, ¬ l.item = k) := by
  induction rows generalizing m0 with
  | nil => simp
  | cons a rest ih =>
    rw [List.foldl_cons, ih]
    by_cases ha : a.item = k
    · subst ha
      rw [mapGet_mapSet_self]
      simp
    · rw [mapGet_mapSet_ne _ _ _ _ (fun hc => ha hc.symm)]
      constructor
      · rintro ⟨h1, h2⟩
        exact ⟨h1, by
          intro l hl
          rcases List.mem_cons.mp hl with h' | h'
          · subst h'; exact ha
          · exact h2 l h'⟩
      · rintro ⟨h1, h2⟩
        exact ⟨h1, fun l hl => h2 l (List.mem_cons_of_mem a hl)⟩

theorem buildMap_get_none (rows : List Line) (k : Nat) :
    mapGet (buildMap rows) k = none ↔ ∀ l ∈ rows, ¬ l.item = k := by
  unfold buildMap
  rw [buildMap_get_none_aux]
  simp [mapGet]

theorem filter_linePatch_other (lines : List Line) (vid i k : Nat) (q p t : Int)
    (hki : ¬ k = i) :
    (lines.map (linePatch vid i q p t)).filter (fun l => l.invoice = vid ∧ l.item = k) =
      lines.filter (fun l => l.invoice = vid ∧ l.item = k) := by
  rw [List.filter_map (linePatch vid i q p t) lines]
  have hp : ((fun l : Line => decide (l.invoice = vid ∧ l.item = k)) ∘ linePatch vid i q p t) =
      (fun l : Line => decide (l.invoice = vid ∧ l.item = k)) := by
    funext l
    simp only [Function.comp_apply]
    unfold linePatch
    by_cases hl : l.invoice = vid ∧ l.item = i
    · simp [hl]
    · rw [if_neg hl]
  rw [hp]
  have h2 : ∀ l ∈ lines.filter (fun l => decide (l.invoice = vid ∧ l.item = k)),
      linePatch vid i q p t l = id l := by
    intro l hl
    have hm := (List.mem_filter.mp hl).2
    simp only [decide_eq_true_eq] at hm
    unfold linePatch
    rw [if_neg]
    · rfl
    · intro hc
      exact hki (by rw [← hm.2, hc.2])
  rw [List.map_congr_left h2, List.map_id]

theorem filter_linePatch_self (lines : List Line) (vid i : Nat) (q p t : Int) :
    (lines.map (linePatch vid i q p t)).filter (fun l => l.invoice = vid ∧ l.item = i) =
      (lines.filter (fun l => l.invoice = vid ∧ l.item = i)).map
        (fun l => { l with qty := q, price := p, lineTotal := t }) := by
  rw [List.filter_map (linePatch vid i q p t) lines]
  have hp : ((fun l : Line => decide (l.invoice = vid ∧ l.item = i)) ∘ linePatch vid i q p t) =
      (fun l : Line => decide (l.invoice = vid ∧ l.item = i)) := by
    funext l
    simp only [Function.comp_apply]
    unfold linePatch
    by_cases hl : l.invoice = vid ∧ l.item = i
    · simp [hl]
    · rw [if_neg hl]
  rw [hp]
  apply List.map_congr_left
  intro l hl
  have hm := (List.mem_filter.mp hl).2
  simp only [decide_eq_true_eq] at hm
  unfold linePatch
  rw [if_pos hm]

theorem filter_del_self (lines : List Line) (vid k0 : Nat) :
    (lines.filter (fun l => ¬ (l.invoice = vid ∧ l.item = k0))).filter
      (fun l => l.invoice = vid ∧ l.item = k0) = [] := by
  apply List.filter_eq_nil_iff.mpr
  intro l hl
  have h1 := (List.mem_filter.mp hl).2
  simp only [decide_eq_true_eq] at h1
  simp [h1]

theorem filter_del_other (lines : List Line) (vid k0 k : Nat) (h : ¬ k = k0) :
    (lines.filter (fun l => ¬ (l.invoice = vid ∧ l.item = k0))).filter
      (fun l => l.invoice = vid ∧ l.item = k) =
      lines.filter (fun l => l.invoice = vid ∧ l.item = k) := by
  rw [List.filter_filter]
  apply List.filter_congr
  intro l _
  by_cases hl : l.invoice = vid ∧ l.item = k
  · have h2 : ¬ (l.invoice = vid ∧ l.item = k0) := by
      intro hc
      exact h (by rw [← hl.2, hc.2])
    simp [hl, h2, h]
  · simp [hl]

/-! ## Item-column tracking through the update loop and the delete pass -/

/-- A stock adjustment on one item leaves every other item's row intact. -/
theorem findItem_adjust_other (db : DB) (L : List Line) (c0 i0 : Nat) (d : Int)
    (cid k : Nat) (hk : ¬ k = i0) :
    findItem { db with lines := L, items := adjustStock db.items c0 i0 d } cid k =
      findItem db cid k := by
  rw [findItem_adjust]
  cases hf : findItem db cid k with
  | none => rfl
  | some it =>
    have hp := List.find?_some hf
    simp only [decide_eq_true_eq] at hp
    rw [Option.map_some']
    rw [if_neg]
    intro hc
    exact hk (hp.1 ▸ hc.1)

/-- A stock adjustment on an item is exactly a stock bump on its row. -/
theorem findItem_adjust_self (db : DB) (L : List Line) (c0 i0 : Nat) (d : Int) :
    findItem { db with lines := L, items := adjustStock db.items c0 i0 d } c0 i0 =
      ((findItem db c0 i0).map (fun it => { it with stock := it.stock + d })) := by
  rw [findItem_adjust]
  cases hf : findItem db c0 i0 with
  | none => rfl
  | some it =>
    have hp := List.find?_some hf
    simp only [decide_eq_true_eq] at hp
    rw [Option.map_some', Option.map_some']
    rw [if_pos hp]

/-- The update loop never touches the row of an item that no request names. -/
theorem processUpd_items_untouched {cid vid : Nat} {reqs : List Req} {db db' : DB}
    {m m' : List (Nat × Int)} {acc acc' : Int}
    (h : processUpd cid vid reqs db m acc = .ok (db', m', acc')) :
    ∀ c k, (∀ r ∈ reqs, ¬ r.item = k) → findItem db' c k = findItem db c k := by
  induction reqs generalizing db m acc with
  | nil =>
    simp only [processUpd, Except.ok.injEq, Prod.mk.injEq] at h
    obtain ⟨h1, h2, h3⟩ := h
    subst h1
    exact fun c k _ => rfl
  | cons r rest ih =>
    rw [processUpd] at h
    by_cases hq : r.qty ≤ 0
    · rw [if_pos hq] at h; exact absurd h (by simp)
    rw [if_neg hq] at h
    cases hf : findItem db cid r.item with
    | none => rw [hf] at h; exact absurd h (by simp)
    | some it =>
      rw [hf] at h
      simp only [] at h
      by_cases hg : 0 < r.qty - (mapGet m r.item).getD 0 ∧
          it.stock < r.qty - (mapGet m r.item).getD 0
      · rw [if_pos hg] at h; exact absurd h (by simp)
      rw [if_neg hg] at h
      intro c k hk
      have hkr : ¬ k = r.item := fun hc => hk r (List.mem_cons_self r rest) hc.symm
      have hkrest : ∀ r' ∈ rest, ¬ r'.item = k :=
        fun r' hr' => hk r' (List.mem_cons_of_mem r hr')
      by_cases hhas : mapHas m r.item
      · rw [if_pos hhas] at h
        simp only [] at h
        rw [ih h c k hkrest]
        exact findItem_adjust_other db
          (db.lines.map (linePatch vid r.item r.qty it.price (it.price * r.qty)))
          cid r.item (-(r.qty - (mapGet m r.item).getD 0)) c k hkr
      · rw [if_neg hhas] at h
        simp only [] at h
        rw [ih h c k hkrest]
        exact findItem_adjust_other db
          (db.lines ++ [(⟨vid, r.item, r.qty, it.price, it.price * r.qty⟩ : Line)])
          cid r.item (-(r.qty - (mapGet m r.item).getD 0)) c k hkr

theorem mapHas_iff_mem_keys (m : List (Nat × Int)) (k : Nat) :
    mapHas m k = true ↔ k ∈ m.map (fun e => e.1) := by
  unfold mapHas
  rw [List.any_eq_true, List.mem_map]
  constructor
  · rintro ⟨e, he, hek⟩
    simp only [decide_eq_true_eq] at hek
    exact ⟨e, he, hek⟩
  · rintro ⟨e, he, hek⟩
    exact ⟨e, he, by simp [hek]⟩

/-- `Map.set` keeps the key list, appending the key only when absent. -/
theorem mapSet_keys (m : List (Nat × Int)) (k : Nat) (v : Int) :
    (mapSet m k v).map (fun e => e.1) =
      if mapHas m k then m.map (fun e => e.1) else m.map (fun e => e.1) ++ [k] := by
  induction m with
  | nil => simp [mapSet, mapHas]
  | cons e rest ih =>
    by_cases he : e.1 = k
    · rw [mapSet, if_pos he]
      have hh : mapHas (e :: rest) k = true := by
        unfold mapHas
        rw [List.any_cons]
        simp [he]
      rw [if_pos hh]
      simp [he]
    · rw [mapSet, if_neg he]
      have hh : mapHas (e :: rest) k = mapHas rest k := by
        unfold mapHas
        rw [List.any_cons]
        simp [he]
      simp only [List.map_cons]
      rw [ih, hh]
      by_cases h2 : mapHas rest k
      · rw [if_pos h2, if_pos h2]
      · rw [if_neg h2, if_neg h2]
        simp

theorem buildMap_keys_nodup_aux (rows : List Line) (m0 : List (Nat × Int))
    (h : (m0.map (fun e => e.1)).Nodup) :
    ((rows.foldl (fun m l => mapSet m l.item l.qty) m0).map (fun e => e.1)).Nodup := by
  induction rows generalizing m0 with
  | nil => exact h
  | cons a rest ih =>
    rw [List.foldl_cons]
    apply ih
    rw [mapSet_keys]
    by_cases hh : mapHas m0 a.item
    · rw [if_pos hh]
      exact h
    · rw [if_neg hh]
      have hnot : a.item ∉ m0.map (fun e => e.1) :=
        fun hc => hh ((mapHas_iff_mem_keys _ _).mpr hc)
      rw [List.nodup_append]
      refine ⟨h, List.nodup_singleton _, ?_⟩
      intro x hx hx2
      rw [List.mem_singleton] at hx2
      subst hx2
      exact hnot hx

/-- The existing-lines map starts with duplicate-free keys. -/
theorem buildMap_keys_nodup (rows : List Line) :
    ((buildMap rows).map (fun e => e.1)).Nodup :=
  buildMap_keys_nodup_aux rows [] (by simp)

theorem mapDelete_keys_nodup (m : List (Nat × Int)) (k : Nat)
    (h : (m.map (fun e => e.1)).Nodup) :
    ((mapDelete m k).map (fun e => e.1)).Nodup := by
  unfold mapDelete
  exact List.Nodup.sublist ((List.filter_sublist m).map _) h

/-- The update loop only shrinks the map, so duplicate-free keys persist. -/
theorem processUpd_keys_nodup {cid vid : Nat} {reqs : List Req} {db db' : DB}
    {m m' : List (Nat × Int)} {acc acc' : Int}
    (h : processUpd cid vid reqs db m acc = .ok (db', m', acc'))
    (hk : (m.map (fun e => e.1)).Nodup) :
    (m'.map (fun e => e.1)).Nodup := by
  induction reqs generalizing db m acc with
  | nil =>
    simp only [processUpd, Except.ok.injEq, Prod.mk.injEq] at h
    obtain ⟨h1, h2, h3⟩ := h
    subst h2
    exact hk
  | cons r rest ih =>
    rw [processUpd] at h
    by_cases hq : r.qty ≤ 0
    · rw [if_pos hq] at h; exact absurd h (by simp)
    rw [if_neg hq] at h
    cases hf : findItem db cid r.item with
    | none => rw [hf] at h; exact absurd h (by simp)
    | some it =>
      rw [hf] at h
      simp only [] at h
      by_cases hg : 0 < r.qty - (mapGet m r.item).getD 0 ∧
          it.stock < r.qty - (mapGet m r.item).getD 0
      · rw [if_pos hg] at h; exact absurd h (by simp)
      rw [if_neg hg] at h
      by_cases hhas : mapHas m r.item
      · rw [if_pos hhas] at h
        simp only [] at h
        exact ih h (mapDelete_keys_nodup m r.item hk)
      · rw [if_neg hhas] at h
        simp only [] at h
        exact ih h (mapDelete_keys_nodup m r.item hk)

/-- The delete pass never touches the row of an item whose key is absent
from the map. -/
theorem processDel_items_untouched (cid vid : Nat) (m : List (Nat × Int)) (db : DB) :
    ∀ c k, ¬ mapHas m k → findItem (processDel cid vid m db) c k = findItem db c k := by
  induction m generalizing db with
  | nil => exact fun c k _ => rfl
  | cons e rest ih =>
    intro c k hk
    have hmh : mapHas (e :: rest) k = true ↔ (e.1 = k ∨ mapHas rest k = true) := by
      unfold mapHas
      rw [List.any_cons]
      simp
    have hk1 : ¬ e.1 = k := fun hc => hk (hmh.mpr (Or.inl hc))
    have hk2 : ¬ mapHas rest k := fun hc => hk (hmh.mpr (Or.inr hc))
    have hstep : processDel cid vid (e :: rest) db = processDel cid vid rest
        { db with
          lines := db.lines.filter (fun l => ¬ (l.invoice = vid ∧ l.item = e.1)),
          items := adjustStock db.items cid e.1 e.2 } := rfl
    rw [hstep]
    rw [ih _ c k hk2]
    exact findItem_adjust_other db
      (db.lines.filter (fun l => ¬ (l.invoice = vid ∧ l.item = e.1)))
      cid e.1 e.2 c k (fun hc => hk1 hc.symm)

/-- The delete pass returns exactly the mapped quantity to the item of a
key still in the (duplicate-free) map. -/
theorem processDel_items_returned (cid vid : Nat) (m : List (Nat × Int)) (db : DB)
    (k : Nat) (q : Int) (hnodup : (m.map (fun e => e.1)).Nodup)
    (hget : mapGet m k = some q) :
    findItem (processDel cid vid m db) cid k =
      ((findItem db cid k).map (fun it => { it with stock := it.stock + q })) := by
  induction m generalizing db with
  | nil => simp [mapGet] at hget
  | cons e rest ih =>
    have hstep : processDel cid vid (e :: rest) db = processDel cid vid rest
        { db with
          lines := db.lines.filter (fun l => ¬ (l.invoice = vid ∧ l.item = e.1)),
          items := adjustStock db.items cid e.1 e.2 } := rfl
    rw [hstep]
    have hnodup2 : (e.1 :: rest.map (fun e => e.1)).Nodup := by
      rw [List.map_cons] at hnodup
      exact hnodup
    by_cases he : e.1 = k
    · have hq : q = e.2 := by
        unfold mapGet at hget
        rw [List.find?_cons_of_pos _ (by simp [he])] at hget
        simp only [Option.map_some', Option.some.injEq] at hget
        exact hget.symm
      subst hq
      have hrest : ¬ mapHas rest k := by
        intro hc
        have hmem := (mapHas_iff_mem_keys rest k).mp hc
        rw [← he] at hmem
        exact (List.nodup_cons.mp hnodup2).1 hmem
      rw [processDel_items_untouched cid vid rest _ cid k hrest]
      rw [← he]
      exact findItem_adjust_self db
        (db.lines.filter (fun l => ¬ (l.invoice = vid ∧ l.item = e.1))) cid e.1 e.2
    · have hget' : mapGet rest k = some q := by
        unfold mapGet at hget ⊢
        rw [List.find?_cons_of_neg _ (by simp [he])] at hget
        exact hget
      have hnodup' : (rest.map (fun e => e.1)).Nodup := (List.nodup_cons.mp hnodup2).2
      rw [ih _ hnodup' hget']
      rw [findItem_adjust_other db
        (db.lines.filter (fun l => ¬ (l.invoice = vid ∧ l.item = e.1)))
        cid e.1 e.2 cid k (fun hc => he hc.symm)]

/-- `rowsFor` filters the invoice's lines down to one item. -/
theorem rowsFor_eq_linesOf_filter (db : DB) (vid k : Nat) :
    rowsFor db vid k = (linesOf db vid).filter (fun l => l.item = k) := by
  unfold rowsFor linesOf
  rw [List.filter_filter]
  apply List.filter_congr
  intro l _
  by_cases h1 : l.invoice = vid <;> by_cases h2 : l.item = k <;> simp [h1, h2]

/-- An invoice whose two stored rows name different items has at most one
row per item. -/
theorem rowsFor_pair_le_one (db : DB) (vid k : Nat) (l1 l2 : Line)
    (h : db.lines = [l1, l2]) (hne : ¬ l1.item = l2.item) :
    (rowsFor db vid k).length ≤ 1 := by
  unfold rowsFor
  rw [h]
  rw [List.filter_cons, List.filter_cons, List.filter_nil]
  by_cases p1 : l1.invoice = vid ∧ l1.item = k
  · by_cases p2 : l2.invoice = vid ∧ l2.item = k
    · exact absurd (p1.2.trans p2.2.symm) hne
    · simp [p1, p2]
  · by_cases p2 : l2.invoice = vid ∧ l2.item = k
    · simp [p1, p2]
    · simp [p1, p2]

theorem buildMap_get_skip (rows : List Line) (m0 : List (Nat × Int)) (k : Nat)
    (h : ∀ l ∈ rows, ¬ l.item = k) :
    mapGet (rows.foldl (fun m l => mapSet m l.item l.qty) m0) k = mapGet m0 k := by
  induction rows generalizing m0 with
  | nil => rfl
  | cons a rest ih =>
    rw [List.foldl_cons]
    rw [ih _ (fun l hl => h l (List.mem_cons_of_mem a hl))]
    exact mapGet_mapSet_ne m0 a.item k a.qty
      (fun hc => h a (List.mem_cons_self a rest) hc.symm)

theorem buildMap_get_single_aux (rows : List Line) (k : Nat) (l : Line) :
    ∀ m0, rows.filter (fun x => x.item = k) = [l] →
      mapGet (rows.foldl (fun m x => mapSet m x.item x.qty) m0) k = some l.qty := by
  induction rows with
  | nil =>
    intro m0 h
    simp at h
  | cons a rest ih =>
    intro m0 h
    rw [List.foldl_cons]
    by_cases ha : a.item = k
    · rw [List.filter_cons_of_pos (by simp [ha])] at h
      simp only [List.cons.injEq] at h
      obtain ⟨h1, h2⟩ := h
      have hall : ∀ x ∈ rest, ¬ x.item = k := by
        intro x hx hc
        have hxm : x ∈ rest.filter (fun x => decide (x.item = k)) :=
          List.mem_filter.mpr ⟨hx, by simp [hc]⟩
        rw [h2] at hxm
        exact absurd hxm (List.not_mem_nil x)
      rw [buildMap_get_skip rest _ k hall]
      rw [← ha, ← h1]
      exact mapGet_mapSet_self m0 a.item a.qty
    · rw [List.filter_cons_of_neg (by simp [ha])] at h
      exact ih _ h

/-- When the invoice holds exactly one row for an item, the constructed map
carries that row's quantity. -/
theorem buildMap_get_single (rows : List Line) (k : Nat) (l : Line)
    (h : rows.filter (fun x => x.item = k) = [l]) :
    mapGet (buildMap rows) k = some l.qty :=
  buildMap_get_single_aux rows k l [] h

/-! ## The update loop: master row specification -/

/-- Full row-level characterisation of a successful update loop under a
duplicate-free request list: items never requested keep their rows and map
entries; every requested item ends with exactly one row carrying the
requested quantity and the item's current catalog price (and is removed
from the map); invoices and parties are untouched. -/
theorem processUpd_ok_rows {cid vid : Nat} {reqs : List Req} {db db' : DB}
    {m m' : List (Nat × Int)} {acc acc' : Int}
    (hreq : (reqs.map (fun r => r.item)).Nodup)
    (hm0 : ∀ r ∈ reqs, mapGet m r.item = none → rowsFor db vid r.item = [])
    (hm1 : ∀ r ∈ reqs, ∀ q, mapGet m r.item = some q → ∃ l, rowsFor db vid r.item = [l])
    (h : processUpd cid vid reqs db m acc = .ok (db', m', acc')) :
    (∀ k, (∀ r ∈ reqs, ¬ r.item = k) →
      rowsFor db' vid k = rowsFor db vid k ∧ mapGet m' k = mapGet m k) ∧
    (∀ r ∈ reqs, (∃ p, (findItem db cid r.item).map (fun it => it.price) = some p ∧
        rowsFor db' vid r.item = [⟨vid, r.item, r.qty, p, p * r.qty⟩]) ∧
      mapGet m' r.item = none) ∧
    db'.invoices = db.invoices ∧ db'.parties = db.parties := by
  induction reqs generalizing db m acc with
  | nil =>
    simp only [processUpd, Except.ok.injEq, Prod.mk.injEq] at h
    obtain ⟨h1, h2, h3⟩ := h
    subst h1; subst h2
    exact ⟨fun k _ => ⟨rfl, rfl⟩, by simp, rfl, rfl⟩
  | cons r rest ih =>
    rw [processUpd] at h
    by_cases hq : r.qty ≤ 0
    · rw [if_pos hq] at h; exact absurd h (by simp)
    rw [if_neg hq] at h
    cases hf : findItem db cid r.item with
    | none => rw [hf] at h; exact absurd h (by simp)
    | some it =>
      rw [hf] at h
      simp only [] at h
      by_cases hg : 0 < r.qty - (mapGet m r.item).getD 0 ∧
          it.stock < r.qty - (mapGet m r.item).getD 0
      · rw [if_pos hg] at h; exact absurd h (by simp)
      rw [if_neg hg] at h
      have hreq' : (rest.map (fun r => r.item)).Nodup := (List.nodup_cons.mp hreq).2
      have hnotin : r.item ∉ rest.map (fun r => r.item) := (List.nodup_cons.mp hreq).1
      have hne : ∀ r' ∈ rest, ¬ r'.item = r.item := by
        intro r' hr' hc
        exact hnotin (hc ▸ List.mem_map_of_mem (fun r => r.item) hr')
      by_cases hhas : mapHas m r.item
      · rw [if_pos hhas] at h
        simp only [] at h
        have hm0' : ∀ r' ∈ rest, mapGet (mapDelete m r.item) r'.item = none →
            rowsFor { db with
              lines := db.lines.map (linePatch vid r.item r.qty it.price (it.price * r.qty)),
              items := adjustStock db.items cid r.item
                (-(r.qty - (mapGet m r.item).getD 0)) } vid r'.item = [] := by
          intro r' hr' hnone
          rw [mapGet_mapDelete_ne m r.item r'.item (hne r' hr')] at hnone
          show (db.lines.map _).filter _ = []
          rw [filter_linePatch_other db.lines vid r.item r'.item _ _ _ (hne r' hr')]
          exact hm0 r' (List.mem_cons_of_mem r hr') hnone
        have hm1' : ∀ r' ∈ rest, ∀ q, mapGet (mapDelete m r.item) r'.item = some q →
            ∃ l, rowsFor { db with
              lines := db.lines.map (linePatch vid r.item r.qty it.price (it.price * r.qty)),
              items := adjustStock db.items cid r.item
                (-(r.qty - (mapGet m r.item).getD 0)) } vid r'.item = [l] := by
          intro r' hr' q hsome
          rw [mapGet_mapDelete_ne m r.item r'.item (hne r' hr')] at hsome
          obtain ⟨l, hl⟩ := hm1 r' (List.mem_cons_of_mem r hr') q hsome
          refine ⟨l, ?_⟩
          show (db.lines.map _).filter _ = [l]
          rw [filter_linePatch_other db.lines vid r.item r'.item _ _ _ (hne r' hr')]
          exact hl
        obtain ⟨ih1, ih2, ih3, ih4⟩ := ih hreq' hm0' hm1' h
        refine ⟨?_, ?_, ih3, ih4⟩
        · intro k hk
          have hkr : ¬ k = r.item := by
            intro hc
            exact hk r (List.mem_cons_self r rest) hc.symm
          have hkrest : ∀ r' ∈ rest, ¬ r'.item = k :=
            fun r' hr' => hk r' (List.mem_cons_of_mem r hr')
          obtain ⟨ha, hb⟩ := ih1 k hkrest
          constructor
          · rw [ha]
            show (db.lines.map _).filter _ = _
            exact filter_linePatch_other db.lines vid r.item k _ _ _ hkr
          · rw [hb]
            exact mapGet_mapDelete_ne m r.item k hkr
        · intro r' hr'
          rcases List.mem_cons.mp hr' with h' | h'
          · subst h'
            obtain ⟨ha, hb⟩ := ih1 r'.item hne
            refine ⟨⟨it.price, by rw [hf]; rfl, ?_⟩, ?_⟩
            · rw [ha]
              show (db.lines.map _).filter _ = _
              rw [filter_linePatch_self db.lines vid r'.item r'.qty it.price (it.price * r'.qty)]
              have hsome : ¬ mapGet m r'.item = none := (mapHas_iff m r'.item).mp hhas
              cases hget : mapGet m r'.item with
              | none => exact absurd hget hsome
              | some q =>
                obtain ⟨l, hl⟩ := hm1 r' (List.mem_cons_self r' rest) q hget
                show (rowsFor db vid r'.item).map _ = _
                rw [hl]
                have hlmem : l ∈ rowsFor db vid r'.item := by
                  rw [hl]
                  exact List.mem_singleton.mpr rfl
                have hpred := (List.mem_filter.mp hlmem).2
                simp only [decide_eq_true_eq] at hpred
                simp [hpred.1, hpred.2]
            · rw [hb]
              exact mapGet_mapDelete_self m r'.item
          · obtain ⟨⟨p, hp1, hp2⟩, hb⟩ := ih2 r' h'
            refine ⟨⟨p, ?_, hp2⟩, hb⟩
            rw [findItem_price_adjust db
              (db.lines.map (linePatch vid r.item r.qty it.price (it.price * r.qty)))
              cid r.item (-(r.qty - (mapGet m r.item).getD 0)) cid r'.item] at hp1
            exact hp1
      · rw [if_neg hhas] at h
        simp only [] at h
        have hmnone : mapGet m r.item = none := by
          by_contra hc
          exact hhas ((mapHas_iff m r.item).mpr hc)
        have happend : ∀ k, ¬ k = r.item →
            (db.lines ++ [(⟨vid, r.item, r.qty, it.price, it.price * r.qty⟩ : Line)]).filter
              (fun l => l.invoice = vid ∧ l.item = k) =
            db.lines.filter (fun l => l.invoice = vid ∧ l.item = k) := by
          intro k hk
          rw [List.filter_append]
          have hsingle : ([(⟨vid, r.item, r.qty, it.price, it.price * r.qty⟩ : Line)]).filter
              (fun l => l.invoice = vid ∧ l.item = k) = [] := by
            rw [List.filter_cons_of_neg]
            · rfl
            · simp only [decide_eq_true_eq]
              intro hc
              exact hk hc.2.symm
          rw [hsingle]
          simp
        have hm0' : ∀ r' ∈ rest, mapGet (mapDelete m r.item) r'.item = none →
            rowsFor { db with
              lines := db.lines ++ [⟨vid, r.item, r.qty, it.price, it.price * r.qty⟩],
              items := adjustStock db.items cid r.item
                (-(r.qty - (mapGet m r.item).getD 0)) } vid r'.item = [] := by
          intro r' hr' hnone
          rw [mapGet_mapDelete_ne m r.item r'.item (hne r' hr')] at hnone
          show (db.lines ++ _).filter _ = []
          rw [happend r'.item (hne r' hr')]
          exact hm0 r' (List.mem_cons_of_mem r hr') hnone
        have hm1' : ∀ r' ∈ rest, ∀ q, mapGet (mapDelete m r.item) r'.item = some q →
            ∃ l, rowsFor { db with
              lines := db.lines ++ [⟨vid, r.item, r.qty, it.price, it.price * r.qty⟩],
              items := adjustStock db.items cid r.item
                (-(r.qty - (mapGet m r.item).getD 0)) } vid r'.item = [l] := by
          intro r' hr' q hsome
          rw [mapGet_mapDelete_ne m r.item r'.item (hne r' hr')] at hsome
          obtain ⟨l, hl⟩ := hm1 r' (List.mem_cons_of_mem r hr') q hsome
          refine ⟨l, ?_⟩
          show (db.lines ++ _).filter _ = [l]
          rw [happend r'.item (hne r' hr')]
          exact hl
        obtain ⟨ih1, ih2, ih3, ih4⟩ := ih hreq' hm0' hm1' h
        refine ⟨?_, ?_, ih3, ih4⟩
        · intro k hk
          have hkr : ¬ k = r.item := by
            intro hc
            exact hk r (List.mem_cons_self r rest) hc.symm
          have hkrest : ∀ r' ∈ rest, ¬ r'.item = k :=
            fun r' hr' => hk r' (List.mem_cons_of_mem r hr')
          obtain ⟨ha, hb⟩ := ih1 k hkrest
          constructor
          · rw [ha]
            show (db.lines ++ _).filter _ = _
            exact happend k hkr
          · rw [hb]
            exact mapGet_mapDelete_ne m r.item k hkr
        · intro r' hr'
          rcases List.mem_cons.mp hr' with h' | h'
          · subst h'
            obtain ⟨ha, hb⟩ := ih1 r'.item hne
            refine ⟨⟨it.price, by rw [hf]; rfl, ?_⟩, ?_⟩
            · rw [ha]
              show (db.lines ++ _).filter _ = _
              rw [List.filter_append]
              rw [show db.lines.filter (fun l => decide (l.invoice = vid ∧ l.item = r'.item)) = []
                from hm0 r' (List.mem_cons_self r' rest) hmnone]
              rw [List.filter_cons_of_pos (by simp)]
              rfl
            · rw [hb]
              exact mapGet_mapDelete_self m r'.item
          · obtain ⟨⟨p, hp1, hp2⟩, hb⟩ := ih2 r' h'
            refine ⟨⟨p, ?_, hp2⟩, hb⟩
            rw [findItem_price_adjust db
              (db.lines ++ [(⟨vid, r.item, r.qty, it.price, it.price * r.qty⟩ : Line)])
              cid r.item (-(r.qty - (mapGet m r.item).getD 0)) cid r'.item] at hp1
            exact hp1

theorem metaPatch_id_company (cid vid : Nat) (dd : Option Nat) (pid : Option Nat)
    (st : Option Status) (now : Nat) (v : Invoice) :
    (metaPatch cid vid dd pid st now v).id = v.id ∧
    (metaPatch cid vid dd pid st now v).company = v.company := by
  unfold metaPatch
  by_cases hw : v.id = vid ∧ v.company = cid <;> simp [hw]

/-- The deletion pass for removed items: every key still in the map loses
all its rows for the invoice; other items' rows are untouched; invoices and
parties are untouched. -/
theorem processDel_rows (cid vid : Nat) (m : List (Nat × Int)) (db : DB) :
    (processDel cid vid m db).invoices = db.invoices ∧
    (processDel cid vid m db).parties = db.parties ∧
    (∀ k, mapHas m k → rowsFor (processDel cid vid m db) vid k = []) ∧
    (∀ k, ¬ mapHas m k → rowsFor (processDel cid vid m db) vid k = rowsFor db vid k) := by
  induction m generalizing db with
  | nil => exact ⟨rfl, rfl, by simp [mapHas], fun k _ => rfl⟩
  | cons e rest ih =>
    have hstep : processDel cid vid (e :: rest) db = processDel cid vid rest
        { db with
          lines := db.lines.filter (fun l => ¬ (l.invoice = vid ∧ l.item = e.1)),
          items := adjustStock db.items cid e.1 e.2 } := rfl
    rw [hstep]
    obtain ⟨ihi, ihp, ih1, ih2⟩ := ih
        { db with
          lines := db.lines.filter (fun l => ¬ (l.invoice = vid ∧ l.item = e.1)),
          items := adjustStock db.items cid e.1 e.2 }
    have hmh : ∀ k, mapHas (e :: rest) k = true ↔ (e.1 = k ∨ mapHas rest k = true) := by
      intro k
      unfold mapHas
      rw [List.any_cons]
      simp
    refine ⟨ihi, ihp, ?_, ?_⟩
    · intro k hk
      rcases (hmh k).mp hk with hk1 | hk2
      · by_cases hk2 : mapHas rest k
        · exact ih1 k hk2
        · rw [ih2 k hk2]
          show (db.lines.filter _).filter _ = []
          rw [← hk1]
          exact filter_del_self db.lines vid e.1
      · exact ih1 k hk2
    · intro k hk
      have hk1 : ¬ e.1 = k := fun hc => hk ((hmh k).mpr (Or.inl hc))
      have hk2 : ¬ mapHas rest k := fun hc => hk ((hmh k).mpr (Or.inr hc))
      rw [ih2 k hk2]
      show (db.lines.filter _).filter _ = _
      exact filter_del_other db.lines vid e.1 k (fun hc => hk1 hc.symm)

/-- Destructor for a successful `updateInvoice`: the invoice was found (and
any requested party validated), and the meta-plus-lines pass produced the
result. -/
theorem updateInvoice_ok_elim {cid vid : Nat} {dd : Option Nat} {pid : Option Nat}
    {st : Option Status} {reqs? : Option (List Req)} {now : Nat} {db db' : DB}
    (h : updateInvoice cid vid dd pid st reqs? now db = .ok db') :
    ∃ v0, findInvoice db cid vid = some v0 ∧
      updateInvoiceMeta cid vid dd pid st reqs? now db = .ok db' := by
  unfold updateInvoice at h
  cases hfi : findInvoice db cid vid with
  | none => rw [hfi] at h; exact absurd h (by simp)
  | some v0 =>
    rw [hfi] at h
    simp only [] at h
    cases pid with
    | none => exact ⟨v0, rfl, h⟩
    | some p =>
      simp only [] at h
      by_cases hp : partyExists db cid p
      · rw [if_neg (by simp [hp])] at h
        exact ⟨v0, rfl, h⟩
      · rw [if_pos (by simp [hp])] at h
        exact absurd h (by simp)

/-- Destructor for a successful meta-plus-lines pass with a lines payload:
the reconcile loop succeeded on the meta-updated state, then the removed
items were dropped and the total recomputed from storage. -/
theorem updateInvoiceMeta_some_elim {cid vid : Nat} {dd : Option Nat} {pid : Option Nat}
    {st : Option Status} {reqs : List Req} {now : Nat} {db db' : DB}
    (h : updateInvoiceMeta cid vid dd pid st (some reqs) now db = .ok db') :
    ∃ db1 m1 acc1,
      processUpd cid vid reqs (applyMeta cid vid dd pid st now db)
          (buildMap (linesOf (applyMeta cid vid dd pid st now db) vid)) 0 =
        .ok (db1, m1, acc1) ∧
      db' = { processDel cid vid m1 db1 with
        invoices := setTotal (processDel cid vid m1 db1).invoices cid vid
          (sumLines (processDel cid vid m1 db1) vid) } := by
  unfold updateInvoiceMeta at h
  simp only [] at h
  cases hpu : processUpd cid vid reqs (applyMeta cid vid dd pid st now db)
      (buildMap (linesOf (applyMeta cid vid dd pid st now db) vid)) 0 with
  | error e => rw [hpu] at h; exact absurd h (by simp)
  | ok p =>
    obtain ⟨db1, m1, acc1⟩ := p
    rw [hpu] at h
    simp only [Except.ok.injEq] at h
    exact ⟨db1, m1, acc1, rfl, h.symm⟩

/-- Row-level specification of a successful `updateInvoice` with a lines
payload, on a well-formed pre-state (at most one row per item on the
invoice) and a duplicate-free desired list: each desired item ends with
exactly one stored row carrying the desired quantity and the item's current
catalog price; every other item has no row left; and the stored total is
the sum of the now-stored rows. -/
theorem updateInvoice_ok_rows {cid vid : Nat} {dd : Option Nat} {pid : Option Nat}
    {st : Option Status} {reqs : List Req} {now : Nat} {db db' : DB}
    (hreq : (reqs.map (fun r => r.item)).Nodup)
    (hrows : ∀ k, (rowsFor db vid k).length ≤ 1)
    (h : updateInvoice cid vid dd pid st (some reqs) now db = .ok db') :
    (∀ r ∈ reqs, ∃ p, (findItem db cid r.item).map (fun it => it.price) = some p ∧
        rowsFor db' vid r.item = [⟨vid, r.item, r.qty, p, p * r.qty⟩]) ∧
    (∀ k, (∀ r ∈ reqs, ¬ r.item = k) → rowsFor db' vid k = []) ∧
    (∀ k l, (∀ r ∈ reqs, ¬ r.item = k) → rowsFor db vid k = [l] →
      findItem db' cid k =
        ((findItem db cid k).map (fun it => { it with stock := it.stock + l.qty }))) ∧
    (∃ v, findInvoice db' cid vid = some v ∧ v.total = sumLines db' vid) := by
  obtain ⟨v0, hfi, hmeta⟩ := updateInvoice_ok_elim h
  obtain ⟨db1, m1, acc1, hpu, rfl⟩ := updateInvoiceMeta_some_elim hmeta
  have hm0 : ∀ r ∈ reqs,
      mapGet (buildMap (linesOf (applyMeta cid vid dd pid st now db) vid)) r.item = none →
      rowsFor (applyMeta cid vid dd pid st now db) vid r.item = [] := by
    intro r hr hnone
    have hall := (buildMap_get_none (linesOf (applyMeta cid vid dd pid st now db) vid) r.item).mp hnone
    show db.lines.filter _ = []
    apply List.filter_eq_nil_iff.mpr
    intro l hl
    simp only [decide_eq_true_eq]
    intro hc
    exact hall l (List.mem_filter.mpr ⟨hl, by simp [hc.1]⟩) hc.2
  have hm1 : ∀ r ∈ reqs, ∀ q,
      mapGet (buildMap (linesOf (applyMeta cid vid dd pid st now db) vid)) r.item = some q →
      ∃ l, rowsFor (applyMeta cid vid dd pid st now db) vid r.item = [l] := by
    intro r hr q hq
    have hnn : ¬ mapGet (buildMap (linesOf (applyMeta cid vid dd pid st now db) vid)) r.item
        = none := by
      rw [hq]; simp
    have hex : ∃ l ∈ linesOf db vid, l.item = r.item := by
      by_contra hc
      push_neg at hc
      exact hnn ((buildMap_get_none _ _).mpr (fun l hl => hc l hl))
    obtain ⟨l, hl, hli⟩ := hex
    have hinv := (List.mem_filter.mp hl).2
    simp only [decide_eq_true_eq] at hinv
    have hmem : l ∈ rowsFor db vid r.item :=
      List.mem_filter.mpr ⟨(List.mem_filter.mp hl).1, by simp [hinv, hli]⟩
    have hlen : (rowsFor db vid r.item).length = 1 := by
      have h1 := List.length_pos_of_mem hmem
      have h2 := hrows r.item
      omega
    obtain ⟨l', hl'⟩ := List.length_eq_one.mp hlen
    exact ⟨l', hl'⟩
  obtain ⟨mst1, mst2, mst3, mst4⟩ := processUpd_ok_rows hreq hm0 hm1 hpu
  obtain ⟨pd1, pd2, pd3, pd4⟩ := processDel_rows cid vid m1 db1
  refine ⟨?_, ?_, ?_, ?_⟩
  · intro r hr
    obtain ⟨⟨p, hp1, hp2⟩, hbnone⟩ := mst2 r hr
    have hnohas : ¬ mapHas m1 r.item := by
      intro hc
      exact (mapHas_iff m1 r.item).mp hc hbnone
    refine ⟨p, hp1, ?_⟩
    show rowsFor (processDel cid vid m1 db1) vid r.item = _
    rw [pd4 r.item hnohas]
    exact hp2
  · intro k hk
    by_cases hbm : mapHas m1 k
    · exact pd3 k hbm
    · show rowsFor (processDel cid vid m1 db1) vid k = []
      rw [pd4 k hbm]
      obtain ⟨ha, hb⟩ := mst1 k hk
      rw [ha]
      have hnone : mapGet m1 k = none := by
        by_contra hc
        exact hbm ((mapHas_iff m1 k).mpr hc)
      rw [hb] at hnone
      have hall := (buildMap_get_none (linesOf (applyMeta cid vid dd pid st now db) vid) k).mp hnone
      show db.lines.filter _ = []
      apply List.filter_eq_nil_iff.mpr
      intro l hl
      simp only [decide_eq_true_eq]
      intro hc
      exact hall l (List.mem_filter.mpr ⟨hl, by simp [hc.1]⟩) hc.2
  · intro k l hk hrow
    have hfilters : (linesOf (applyMeta cid vid dd pid st now db) vid).filter
        (fun x => x.item = k) = [l] := by
      show (linesOf db vid).filter _ = [l]
      rw [← rowsFor_eq_linesOf_filter]
      exact hrow
    have hget0 : mapGet (buildMap (linesOf (applyMeta cid vid dd pid st now db) vid)) k =
        some l.qty := buildMap_get_single _ k l hfilters
    have hm1get : mapGet m1 k = some l.qty := by
      rw [(mst1 k hk).2]
      exact hget0
    have hkeys : (m1.map (fun e => e.1)).Nodup :=
      processUpd_keys_nodup hpu (buildMap_keys_nodup _)
    have hfin := processDel_items_returned cid vid m1 db1 k l.qty hkeys hm1get
    have huntouched := processUpd_items_untouched hpu cid k hk
    show findItem (processDel cid vid m1 db1) cid k = _
    rw [hfin, huntouched]
    rfl
  · have hv0 := List.find?_some hfi
    simp only [decide_eq_true_eq] at hv0
    refine ⟨{ metaPatch cid vid dd pid st now v0 with
        total := sumLines (processDel cid vid m1 db1) vid }, ?_, ?_⟩
    · show ((setTotal (processDel cid vid m1 db1).invoices cid vid
          (sumLines (processDel cid vid m1 db1) vid)).find? _) = _
      rw [setTotal_find?]
      rw [pd1, mst3]
      show ((db.invoices.map (metaPatch cid vid dd pid st now)).find? _).map _ = _
      rw [find?_invmap db.invoices cid vid (metaPatch cid vid dd pid st now)
        (metaPatch_id_company cid vid dd pid st now)]
      rw [show db.invoices.find? (fun v => decide (v.id = vid ∧ v.company = cid)) = some v0
        from hfi]
      show some (if (metaPatch cid vid dd pid st now v0).id = vid ∧
          (metaPatch cid vid dd pid st now v0).company = cid then _ else _) = _
      rw [if_pos (by
        rw [(metaPatch_id_company cid vid dd pid st now v0).1,
          (metaPatch_id_company cid vid dd pid st now v0).2]
        exact hv0)]
    · rfl

/-- C5: for every successful `updateInvoice` with a lines payload, on a
well-formed state and a duplicate-free desired list, the stored line set
matches the desired set exactly by item identity and quantity — each
desired item keeps exactly one row with the desired quantity, every item
omitted from the desired set has its rows deleted with their stock
returned (an omitted item's stored row of quantity `q` is removed and that
item's stock rises by exactly `q`) — and the stored `total_amount` equals
the sum of the now-persisted lines recomputed from storage. -/
theorem updateInvoice_matches_desired {cid vid : Nat} {dd : Option Nat} {pid : Option Nat}
    {st : Option Status} {reqs : List Req} {now : Nat} {db db' : DB}
    (hreq : (reqs.map (fun r => r.item)).Nodup)
    (hrows : ∀ k, (rowsFor db vid k).length ≤ 1)
    (h : updateInvoice cid vid dd pid st (some reqs) now db = .ok db') :
    (∀ r ∈ reqs, (rowsFor db' vid r.item).map (fun l => l.qty) = [r.qty]) ∧
    (∀ k, (∀ r ∈ reqs, ¬ r.item = k) → rowsFor db' vid k = []) ∧
    (∀ k l, (∀ r ∈ reqs, ¬ r.item = k) → rowsFor db vid k = [l] →
      findItem db' cid k =
        ((findItem db cid k).map (fun it => { it with stock := it.stock + l.qty }))) ∧
    (∃ v, findInvoice db' cid vid = some v ∧ v.total = sumLines db' vid) := by
  obtain ⟨c1, c2, c3, c4⟩ := updateInvoice_ok_rows hreq hrows h
  refine ⟨?_, c2, c3, c4⟩
  intro r hr
  obtain ⟨p, _, hp2⟩ := c1 r hr
  rw [hp2]
  rfl

/-- C4 counterexample: the invoice holds a line bought at price 100; the
catalog price has moved to 150; updating the line's quantity from 4 to 2
overwrites the stored `price_at_purchase` with 150 (and re-prices the line
total), contradicting the claim that only the quantity changes. -/
theorem updateInvoice_reprices_counterexample :
    updateInvoice 1 100 none none none (some [⟨10, 2⟩]) 1
        { items := [⟨10, 1, 150, 6⟩], parties := [⟨5, 1⟩],
          invoices := [⟨100, 1, 5, 77, none, 400, .draft, 0⟩],
          lines := [⟨100, 10, 4, 100, 400⟩] } =
      .ok { items := [⟨10, 1, 150, 8⟩], parties := [⟨5, 1⟩],
            invoices := [⟨100, 1, 5, 77, none, 300, .draft, 1⟩],
            lines := [⟨100, 10, 2, 150, 300⟩] } := by
  rfl

/-- C4 amended: after every successful `updateInvoice` with a lines payload
(well-formed state, duplicate-free desired list), every stored line of the
invoice carries the item's *current* catalog price as `price_at_purchase`,
with `total_line_amount = price × quantity`: the update re-prices lines
rather than preserving the historical price. -/
theorem updateInvoice_reprices_lines {cid vid : Nat} {dd : Option Nat} {pid : Option Nat}
    {st : Option Status} {reqs : List Req} {now : Nat} {db db' : DB}
    (hreq : (reqs.map (fun r => r.item)).Nodup)
    (hrows : ∀ k, (rowsFor db vid k).length ≤ 1)
    (h : updateInvoice cid vid dd pid st (some reqs) now db = .ok db') :
    ∀ l ∈ linesOf db' vid, ∃ it, findItem db cid l.item = some it ∧
      l.price = it.price ∧ l.lineTotal = l.price * l.qty := by
  obtain ⟨c1, c2, _⟩ := updateInvoice_ok_rows hreq hrows h
  intro l hl
  have h1 := List.mem_filter.mp hl
  have h2 := h1.2
  simp only [decide_eq_true_eq] at h2
  have hmem : l ∈ rowsFor db' vid l.item :=
    List.mem_filter.mpr ⟨h1.1, by simp [h2]⟩
  by_cases hx : ∃ r ∈ reqs, r.item = l.item
  · obtain ⟨r, hr, hri⟩ := hx
    obtain ⟨p, hp1, hp2⟩ := c1 r hr
    rw [hri] at hp1 hp2
    rw [hp2] at hmem
    have hl2 := List.mem_singleton.mp hmem
    obtain ⟨it, hit, hitp⟩ := Option.map_eq_some'.mp hp1
    refine ⟨it, hit, ?_, ?_⟩
    · rw [hl2, hitp]
    · rw [hl2]
  · push_neg at hx
    rw [c2 l.item (fun r hr hc => hx r hr hc)] at hmem
    exact absurd hmem (List.not_mem_nil l)

/-! ## Stock non-negativity through every operation -/

/-- Witness for C1 on the spec's scenario: stock 10, price 100, one line of
quantity 4 — the committed invoice totals 400, the line is priced at the
catalog price, and stock drops to 6. -/
theorem createInvoice_total_and_stock_witness :
    ∃ v, findInvoice ⟨[⟨10, 1, 100, 6⟩], [⟨5, 1⟩], [⟨100, 1, 5, 77, none, 400, .draft, 0⟩],
        [⟨100, 10, 4, 100, 400⟩]⟩ 1 100 = some v ∧
      v.total = sumLines ⟨[⟨10, 1, 100, 6⟩], [⟨5, 1⟩], [⟨100, 1, 5, 77, none, 400, .draft, 0⟩],
        [⟨100, 10, 4, 100, 400⟩]⟩ 100 := by
  have h : createInvoice 1 5 77 none none [⟨10, 4⟩] 100 0
      ⟨[⟨10, 1, 100, 10⟩], [⟨5, 1⟩], [], []⟩ =
      .ok ⟨[⟨10, 1, 100, 6⟩], [⟨5, 1⟩], [⟨100, 1, 5, 77, none, 400, .draft, 0⟩],
        [⟨100, 10, 4, 100, 400⟩]⟩ := rfl
  exact (createInvoice_total_and_stock (by simp) (by simp) h).1

/-- Witness for C4's amended claim: updating the quantity from 4 to 2 after
the catalog price moved from 100 to 150 leaves the stored line carrying
price 150 — the current catalog price. -/
theorem updateInvoice_reprices_lines_witness :
    ∃ it, findItem ⟨[⟨10, 1, 150, 6⟩], [⟨5, 1⟩], [⟨100, 1, 5, 77, none, 400, .draft, 0⟩],
        [⟨100, 10, 4, 100, 400⟩]⟩ 1 (⟨100, 10, 2, 150, 300⟩ : Line).item = some it ∧
      (⟨100, 10, 2, 150, 300⟩ : Line).price = it.price ∧
      (⟨100, 10, 2, 150, 300⟩ : Line).lineTotal =
        (⟨100, 10, 2, 150, 300⟩ : Line).price * (⟨100, 10, 2, 150, 300⟩ : Line).qty := by
  have h : updateInvoice 1 100 none none none (some [⟨10, 2⟩]) 1
      ⟨[⟨10, 1, 150, 6⟩], [⟨5, 1⟩], [⟨100, 1, 5, 77, none, 400, .draft, 0⟩],
        [⟨100, 10, 4, 100, 400⟩]⟩ =
      .ok ⟨[⟨10, 1, 150, 8⟩], [⟨5, 1⟩], [⟨100, 1, 5, 77, none, 300, .draft, 1⟩],
        [⟨100, 10, 2, 150, 300⟩]⟩ := rfl
  exact updateInvoice_reprices_lines (by simp)
    (by intro k; exact List.length_filter_le _ _) h ⟨100, 10, 2, 150, 300⟩ (by decide)

/-- Witness for C5: the invoice carries lines for items 10 (qty 4) and 11
(qty 3); the update keeps only item 10 at quantity 2. Afterwards item 10's
row holds quantity 2, item 11's row is gone, item 11's stock rose from 5
to 8 — the deleted quantity 3 returned — and the stored total is the sum
of the surviving lines. -/
theorem updateInvoice_matches_desired_witness :
    ((rowsFor ⟨[⟨10, 1, 100, 8⟩, ⟨11, 1, 50, 8⟩], [⟨5, 1⟩],
        [⟨100, 1, 5, 77, none, 200, .draft, 1⟩], [⟨100, 10, 2, 100, 200⟩]⟩ 100
        (⟨10, 2⟩ : Req).item).map (fun l => l.qty) = [(⟨10, 2⟩ : Req).qty]) ∧
    rowsFor ⟨[⟨10, 1, 100, 8⟩, ⟨11, 1, 50, 8⟩], [⟨5, 1⟩],
        [⟨100, 1, 5, 77, none, 200, .draft, 1⟩], [⟨100, 10, 2, 100, 200⟩]⟩ 100 11 = [] ∧
    findItem ⟨[⟨10, 1, 100, 8⟩, ⟨11, 1, 50, 8⟩], [⟨5, 1⟩],
        [⟨100, 1, 5, 77, none, 200, .draft, 1⟩], [⟨100, 10, 2, 100, 200⟩]⟩ 1 11 =
      some ⟨11, 1, 50, 8⟩ ∧
    (∃ v, findInvoice ⟨[⟨10, 1, 100, 8⟩, ⟨11, 1, 50, 8⟩], [⟨5, 1⟩],
        [⟨100, 1, 5, 77, none, 200, .draft, 1⟩], [⟨100, 10, 2, 100, 200⟩]⟩ 1 100 = some v ∧
      v.total = sumLines ⟨[⟨10, 1, 100, 8⟩, ⟨11, 1, 50, 8⟩], [⟨5, 1⟩],
        [⟨100, 1, 5, 77, none, 200, .draft, 1⟩], [⟨100, 10, 2, 100, 200⟩]⟩ 100) := by
  have h : updateInvoice 1 100 none none none (some [⟨10, 2⟩]) 1
      ⟨[⟨10, 1, 100, 6⟩, ⟨11, 1, 50, 5⟩], [⟨5, 1⟩],
        [⟨100, 1, 5, 77, none, 550, .draft, 0⟩],
        [⟨100, 10, 4, 100, 400⟩, ⟨100, 11, 3, 50, 150⟩]⟩ =
      .ok ⟨[⟨10, 1, 100, 8⟩, ⟨11, 1, 50, 8⟩], [⟨5, 1⟩],
        [⟨100, 1, 5, 77, none, 200, .draft, 1⟩], [⟨100, 10, 2, 100, 200⟩]⟩ := rfl
  have hspec := updateInvoice_matches_desired (by simp)
    (by intro k; exact rowsFor_pair_le_one _ 100 k _ _ rfl (by decide)) h
  refine ⟨hspec.1 ⟨10, 2⟩ (List.mem_singleton.mpr rfl), hspec.2.1 11 (by decide), ?_,
    hspec.2.2.2⟩
  exact hspec.2.2.1 11 ⟨100, 11, 3, 50, 150⟩ (by decide) rfl

/-- Witness for C6: a create with quantity 0 fails and leaves the state
exactly as it was. -/
theorem createInvoice_rejects_nonpositive_qty_witness :
    (∃ e, createInvoice 1 5 77 none none [⟨10, 0⟩] 100 0
      ⟨[⟨10, 1, 100, 10⟩], [⟨5, 1⟩], [], []⟩ = .error e) ∧
    runCreate 1 5 77 none none [⟨10, 0⟩] 100 0 ⟨[⟨10, 1, 100, 10⟩], [⟨5, 1⟩], [], []⟩ =
      ⟨[⟨10, 1, 100, 10⟩], [⟨5, 1⟩], [], []⟩ ∧
    createInvoice 1 5 77 none none [⟨10, 0⟩] 100 0
      ⟨[⟨10, 1, 100, 10⟩], [⟨5, 1⟩], [], []⟩ = .error (.invalidQuantity 10) := by
  have hbad : ∃ r ∈ [(⟨10, 0⟩ : Req)], r.qty ≤ 0 :=
    ⟨⟨10, 0⟩, List.mem_singleton.mpr rfl, by decide⟩
  have hspec := @createInvoice_rejects_nonpositive_qty 1 5 77 none none [⟨10, 0⟩] 100 0
      ⟨[⟨10, 1, 100, 10⟩], [⟨5, 1⟩], [], []⟩ hbad
  exact ⟨hspec.1, hspec.2.1, hspec.2.2 ⟨10, 0⟩ [] rfl (by decide) (by decide) (by decide)⟩

/-- Witness for C8's amended claim: the duplicate request yields two stored
lines, one per request entry. -/
theorem createInvoice_duplicates_kept_separate_witness :
    (linesOf ⟨[⟨10, 1, 100, 7⟩], [⟨5, 1⟩], [⟨101, 1, 5, 78, none, 300, .draft, 0⟩],
        [⟨101, 10, 1, 100, 100⟩, ⟨101, 10, 2, 100, 200⟩]⟩ 101).length =
      ([(⟨10, 1⟩ : Req), ⟨10, 2⟩]).length := by
  have h : createInvoice 1 5 78 none none [⟨10, 1⟩, ⟨10, 2⟩] 101 0
      ⟨[⟨10, 1, 100, 10⟩], [⟨5, 1⟩], [], []⟩ =
      .ok ⟨[⟨10, 1, 100, 7⟩], [⟨5, 1⟩], [⟨101, 1, 5, 78, none, 300, .draft, 0⟩],
        [⟨101, 10, 1, 100, 100⟩, ⟨101, 10, 2, 100, 200⟩]⟩ := rfl
  exact (createInvoice_duplicates_kept_separate (by simp) h).2.1

/-- Witness for C10: creating with an empty items list succeeds, committing
an invoice with total 0 and touching nothing else. -/
theorem createInvoice_empty_lines_witness :
    createInvoice 1 5 77 none none [] 100 0 ⟨[⟨10, 1, 100, 10⟩], [⟨5, 1⟩], [], []⟩ =
      .ok ⟨[⟨10, 1, 100, 10⟩], [⟨5, 1⟩], [⟨100, 1, 5, 77, none, 0, .draft, 0⟩], []⟩ := by
  exact createInvoice_empty_lines (by decide) (by decide) (by simp)

end Pragati
